import Mathlib

/-
Verification of the yardstick-engine benchmark execution pipeline.

The Python sources under engine/ are shallowly embedded as Lean
definitions: JSON-like values become the inductive type `Json`, the
restricted JSONPath evaluator, the exact-match metric, the aggregator,
the system invoker, the run orchestrator and the JSONL dataset loader
become pure Lean functions, with external effects (the HTTP transport,
wall-clock timestamps) passed in as explicit parameters and Python
exceptions modelled with `Except`.

Modelling conventions:
- machine text is `String`/`List Char`; Python `str.strip`, `str.lower`,
  `str.split` are embedded for the ASCII character ranges the engine
  manipulates;
- JSON numbers are modelled as integers (the engine never computes with
  numerics; they only flow through extraction and textual comparison);
- Python dynamic attribute access on a pydantic model is embedded as a
  finite field-name lookup, so that access to an undefined attribute is
  visible as an `AttributeError` value rather than a type error.
-/

namespace YardstickEngine

/-- JSON-like value trees exchanged between the engine's components. -/
inductive Json where
  | null : Json
  | bool (b : Bool) : Json
  | num (n : Int) : Json
  | str (s : String) : Json
  | arr (items : List Json) : Json
  | obj (fields : List (String × Json)) : Json

/-- Whether a value is a Python dict, i.e. a JSON object. -/
def Json.isObj : Json → Bool
  | .obj _ => true
  | _ => false

/-- Python whitespace test (`str.isspace`) for the ASCII whitespace
characters: space, tab, newline, carriage return, vertical tab, form feed. -/
def pyIsSpace (c : Char) : Bool :=
  c = ' ' || c = '\t' || c = '\n' || c = '\r' || c = '\x0b' || c = '\x0c'

/-- Removes leading and trailing whitespace from a character list,
embedding Python `str.strip()`. -/
def pyStripData (l : List Char) : List Char :=
  ((l.dropWhile pyIsSpace).reverse.dropWhile pyIsSpace).reverse

/-- Python `str.strip()`. -/
def pyStrip (s : String) : String :=
  String.mk (pyStripData s.data)

/-- Python `str.lower()` (ASCII letters). -/
def pyLower (s : String) : String :=
  String.mk (s.data.map Char.toLower)

/-- Splits a character list at every occurrence of `sep`, embedding
Python `str.split(sep)` for a one-character separator.  The result is
always non-empty and keeps empty pieces, exactly like Python. -/
def splitOnChar (sep : Char) : List Char → List (List Char)
  | [] => [[]]
  | c :: rest =>
    let r := splitOnChar sep rest
    if c = sep then [] :: r
    else
      match r with
      | [] => [[c]]
      | s :: ss => (c :: s) :: ss

/-- Python `s.split(sep)` for a one-character separator, on strings. -/
def pySplit (sep : Char) (s : String) : List String :=
  (splitOnChar sep s.data).map String.mk

/-- First character of a restricted JSONPath field name:
the regex class with letters and underscore. -/
def isIdentStart (c : Char) : Bool :=
  c.isAlpha || c = '_'

/-- Later characters of a restricted JSONPath field name:
the regex class with letters, digits and underscore. -/
def isIdentChar (c : Char) : Bool :=
  c.isAlphanum || c = '_'

mutual

/-- State of the matcher for the anchored pattern of engine/jsonpath.py
after a dot: a field name must begin. -/
def segsIdentStart : List Char → Bool
  | [] => false
  | c :: rest => isIdentStart c && segsIdentRest rest

/-- State of the matcher inside a field name: more name characters, the
end of the path, or a dot opening the next segment. -/
def segsIdentRest : List Char → Bool
  | [] => true
  | c :: rest =>
    if isIdentChar c then segsIdentRest rest
    else if c = '.' then segsIdentStart rest
    else false

end

/-- Matcher for the part of the anchored pattern after the root symbol:
zero or more segments, each a dot followed by a field name. -/
def segsMatch : List Char → Bool
  | [] => true
  | c :: rest => if c = '.' then segsIdentStart rest else false

/-- Python `type(v).__name__` for the embedded JSON values. -/
def pyTypeName : Json → String
  | .null => "NoneType"
  | .bool _ => "bool"
  | .num _ => "int"
  | .str _ => "str"
  | .arr _ => "list"
  | .obj _ => "dict"

/-- Python dict lookup on the association-list representation of a JSON
object (first matching key wins; objects built by the engine have unique
keys). -/
def lookupStr (k : String) : List (String × Json) → Option Json
  | [] => none
  | (k2, v) :: rest => if k2 = k then some v else lookupStr k rest

/-- The traversal loop of `eval_jsonpath` in engine/jsonpath.py: walks the
named fields, keeping the path walked so far for error messages.  The
source checks, in order: value is null, value is not a dict, field absent. -/
def traverseFields (walked : String) (current : Json) : List String → Except String Json
  | [] => .ok current
  | field :: rest =>
    let w := walked ++ "." ++ field
    match current with
    | .null =>
      .error ("Cannot access \x27" ++ field ++ "\x27 on null value at path: " ++ w)
    | .obj kvs =>
      match lookupStr field kvs with
      | none => .error ("Field \x27" ++ field ++ "\x27 not found at path: " ++ w)
      | some v => traverseFields w v rest
    | other =>
      .error ("Cannot access \x27" ++ field ++ "\x27 on non-object type \x27"
        ++ pyTypeName other ++ "\x27 at path: " ++ w)

/-- Core of `eval_jsonpath` from engine/jsonpath.py on the characters of
the stripped path (`p` is the stripped path itself, interpolated into
messages): check for emptiness, for the root symbol, and against the
anchored pattern; the root path alone returns the value unchanged;
otherwise the text after the leading two characters is split on dots and
traversed. -/
def evalChars (obj : Json) (cs : List Char) (p : String) : Except String Json :=
  match cs with
  | [] => .error ("JSONPath cannot be empty")
  | c :: rest =>
    if c = '$' then
      if segsMatch rest then
        if rest = [] then .ok obj
        else traverseFields ("$") obj ((splitOnChar '.' (rest.drop 1)).map String.mk)
      else .error ("Invalid JSONPath syntax: " ++ p)
    else .error ("JSONPath must start with \x27$\x27, got: " ++ p)

/-- Embedding of `eval_jsonpath` from engine/jsonpath.py: strip the
path, then run the checks and the traversal.  `JSONPathError` is
modelled as the error message string. -/
def eval_jsonpath (obj : Json) (path : String) : Except String Json :=
  let p := pyStrip path
  evalChars obj p.data p

/-- A field name of the restricted grammar: a start character followed by
name characters. -/
def validIdentChars : List Char → Bool
  | [] => false
  | c :: cs => isIdentStart c && cs.all isIdentChar

/-- Splitting view of the restricted path grammar: the root symbol alone
yields no fields; the root symbol, a dot and a rest yield the pieces of
the rest split on dots, provided every piece is a valid field name. -/
def parseFields : List Char → Option (List (List Char))
  | [] => none
  | c :: rest =>
    if c = '$' then
      match rest with
      | [] => some []
      | d :: t =>
        if d = '.' then
          if (splitOnChar '.' t).all validIdentChars then some (splitOnChar '.' t) else none
        else none
    else none

/-- Classified evaluation errors of the path evaluator, as the
specification describes them. -/
inductive PathErr where
  | emptyPath : PathErr
  | noRoot (p : String) : PathErr
  | badSyntax (p : String) : PathErr
  | nullAccess (field : String) (walked : String) : PathErr
  | nonObject (field : String) (tyname : String) (walked : String) : PathErr
  | fieldNotFound (field : String) (walked : String) : PathErr

/-- The message text engine/jsonpath.py attaches to each classified
evaluation error. -/
def renderPathErr : PathErr → String
  | .emptyPath => "JSONPath cannot be empty"
  | .noRoot p => "JSONPath must start with \x27$\x27, got: " ++ p
  | .badSyntax p => "Invalid JSONPath syntax: " ++ p
  | .nullAccess field w =>
    "Cannot access \x27" ++ field ++ "\x27 on null value at path: " ++ w
  | .nonObject field ty w =>
    "Cannot access \x27" ++ field ++ "\x27 on non-object type \x27"
      ++ ty ++ "\x27 at path: " ++ w
  | .fieldNotFound field w =>
    "Field \x27" ++ field ++ "\x27 not found at path: " ++ w

/-- Field-by-field traversal with classified errors: reading a field of
null, of a non-object value, or a field that is absent. -/
def chainWalk (walked : String) (current : Json) : List String → Except PathErr Json
  | [] => .ok current
  | field :: rest =>
    let w := walked ++ "." ++ field
    match current with
    | .null => .error (.nullAccess field w)
    | .obj kvs =>
      match lookupStr field kvs with
      | none => .error (.fieldNotFound field w)
      | some v => chainWalk w v rest
    | other => .error (.nonObject field (pyTypeName other) w)

/-- Core of the reference evaluator on the characters of the stripped
path: reject the empty path, a path not rooted at the root symbol, and a
path outside the splitting grammar, then chain the named field accesses
with classified errors. -/
def refChars (obj : Json) (cs : List Char) (p : String) : Except PathErr Json :=
  match cs with
  | [] => .error (.emptyPath)
  | c :: _ =>
    if c = '$' then
      match parseFields cs with
      | none => .error (.badSyntax p)
      | some fs => chainWalk ("$") obj (fs.map String.mk)
    else .error (.noRoot p)

/-- Reference evaluator for the restricted path language, stated with the
splitting grammar view and classified errors. -/
def eval_jsonpath_ref (obj : Json) (path : String) : Except PathErr Json :=
  let p := pyStrip path
  refChars obj p.data p

/-- Reading one field out of a JSON value, `none` unless the value is an
object holding the field. -/
def getField (j : Json) (f : String) : Option Json :=
  match j with
  | .obj kvs => lookupStr f kvs
  | _ => none

/-- Chained field access: the value reached by reading the named fields
one after the other. -/
def chainFold (j : Json) : List String → Option Json
  | [] => some j
  | f :: rest =>
    match getField j f with
    | none => none
    | some v => chainFold v rest

/-- Escapes one character of a Python string repr rendered with quote
character `q`. -/
def escQuote (q : Char) (c : Char) : String :=
  if c = '\\' then ("\\\\")
  else if c = q then String.mk ['\\', q]
  else if c = '\n' then ("\\n")
  else if c = '\r' then ("\\r")
  else if c = '\t' then ("\\t")
  else String.mk [c]

/-- Python `repr` of a string: single quotes, switching to double quotes
when the text holds a single quote but no double quote. -/
def pyReprStr (s : String) : String :=
  let q := if s.data.contains '\x27' && !(s.data.contains '"') then '"' else '\x27'
  String.mk [q] ++ String.join (s.data.map (escQuote q)) ++ String.mk [q]

mutual

/-- Python `repr` of a JSON-like value: `None`, `True`, `False`, decimal
integers, quoted strings, and bracketed containers with comma-separated
elements. -/
def pyRepr : Json → String
  | .null => "None"
  | .bool true => "True"
  | .bool false => "False"
  | .num n => toString n
  | .str s => pyReprStr s
  | .arr items => "[" ++ pyReprList items ++ "]"
  | .obj kvs => "\x7b" ++ pyReprObj kvs ++ "\x7d"

/-- Comma-separated reprs of list elements. -/
def pyReprList : List Json → String
  | [] => ""
  | [x] => pyRepr x
  | x :: y :: xs => pyRepr x ++ ", " ++ pyReprList (y :: xs)

/-- Comma-separated `key: value` reprs of dict entries. -/
def pyReprObj : List (String × Json) → String
  | [] => ""
  | [(k, v)] => pyReprStr k ++ ": " ++ pyRepr v
  | (k, v) :: e :: rest => pyReprStr k ++ ": " ++ pyRepr v ++ ", " ++ pyReprObj (e :: rest)

end

/-- Python `str` of a JSON-like value: the text itself for a string,
`repr` otherwise. -/
def pyStr : Json → String
  | .str s => s
  | v => pyRepr v

/-- Embedding of `_normalize` from engine/metrics.py:
`str(value).lower().strip()`. -/
def _normalize (value : Json) : String :=
  pyStrip (pyLower (pyStr value))

/-- The exception raised by metric scoring: engine/metrics.py sets the
code to `metric_failed` unconditionally in its constructor. -/
structure MetricError where
  code : String
  message : String

/-- The `MetricError` constructor of engine/metrics.py. -/
def metricError (message : String) : MetricError :=
  ⟨("metric_failed"), message⟩

/-- Embedding of `score_exact_match` from engine/metrics.py: resolve the
prediction path against the extracted output and the reference path
against the reference, wrapping either failure in a `MetricError` naming
the failed side; on success compare the normalized values. -/
def score_exact_match (extracted_output : Json) (reference : Json)
    (pred_path : String) (ref_path : String) : Except MetricError Bool :=
  match eval_jsonpath extracted_output pred_path with
  | .error e =>
    .error (metricError
      ("Failed to extract predicted value at \x27" ++ pred_path ++ "\x27: " ++ e))
  | .ok pred_value =>
    match eval_jsonpath reference ref_path with
    | .error e =>
      .error (metricError
        ("Failed to extract reference value at \x27" ++ ref_path ++ "\x27: " ++ e))
    | .ok ref_value =>
      .ok (_normalize pred_value == _normalize ref_value)

/-- Embedding of `aggregate_mean` from engine/aggregation.py.  Python's
float arithmetic is modelled with exact rationals; the numerator
`sum(values)` adds the booleans as 1 and 0. -/
def aggregate_mean (values : List Bool) : ℚ :=
  if values = [] then 0
  else ((values.map (fun b => if b then (1 : ℚ) else 0)).sum) / (values.length : ℚ)

/-- Embedding of `SystemConfig` from engine/systems.py. -/
structure SystemConfig where
  name : String
  endpoint : String

/-- Embedding of `InvokeError` from engine/systems.py. -/
structure InvokeError where
  code : String
  message : String
  http_status : Option Nat

/-- The fixed request timeout of engine/systems.py, in seconds. -/
def _DEFAULT_TIMEOUT : ℚ := 30

/-- Outcome of one `httpx.post` call, the external transport behaviour:
a timeout exception, a connection-level request exception, or a response
carrying a status code and a body (`none` when the body does not parse
as JSON). -/
inductive HttpOutcome where
  | timeoutExc : HttpOutcome
  | requestExc (msg : String) : HttpOutcome
  | response (status : Nat) (body : Option Json) : HttpOutcome

/-- The ambient HTTP transport: what one POST of a JSON body to an
endpoint URL, under a given timeout, comes back with. -/
def Net : Type :=
  String → Json → ℚ → HttpOutcome

/-- `httpx` response success test: a 2xx status code. -/
def is_success (status : Nat) : Bool :=
  200 ≤ status && status < 300

/-- Embedding of `invoke_case` from engine/systems.py: one POST with the
fixed timeout; a timeout exception becomes code `timeout`, a
connection-level failure becomes `http_error` with no status, a non-2xx
response becomes `http_error` carrying the status, and a 2xx response
with an unparseable body becomes `invalid_json`. -/
def invoke_case (net : Net) (system : SystemConfig) (body : Json) : Except InvokeError Json :=
  match net system.endpoint body _DEFAULT_TIMEOUT with
  | .timeoutExc =>
    .error ⟨("timeout"),
      ("Request to " ++ system.endpoint ++ " timed out after 30.0s"), none⟩
  | .requestExc m =>
    .error ⟨("http_error"),
      ("Request to " ++ system.endpoint ++ " failed: " ++ m), none⟩
  | .response status bodyJson =>
    if is_success status then
      match bodyJson with
      | some j => .ok j
      | none =>
        .error ⟨("invalid_json"),
          ("Response from " ++ system.endpoint ++ " is not valid JSON"), none⟩
    else
      .error ⟨("http_error"),
        ("Request to " ++ system.endpoint ++ " returned status " ++ toString status),
        some status⟩

/-- Embedding of `ExtractionError` from engine/extraction.py. -/
structure ExtractionError where
  code : String
  message : String
  path : String

/-- Embedding of `extract_output` from engine/extraction.py: apply the
path evaluator, wrapping a failure with code `output_extraction_failed`. -/
def extract_output (response_json : Json) (output_json_path : String) : Except ExtractionError Json :=
  match eval_jsonpath response_json output_json_path with
  | .ok v => .ok v
  | .error e => .error ⟨("output_extraction_failed"), e, output_json_path⟩

/-- Embedding of `DatasetConfig` from engine/spec.py. -/
structure DatasetConfig where
  path : String

/-- Embedding of `RequestConfig` from engine/spec.py (the literal types
of the validated document are plain strings here). -/
structure RequestConfig where
  method : String
  body_json_path : String

/-- Embedding of `ResponseConfig` from engine/spec.py. -/
structure ResponseConfig where
  output_json_path : String

/-- Embedding of `ContractConfig` from engine/spec.py. -/
structure ContractConfig where
  protocol : String
  request : RequestConfig
  response : ResponseConfig

/-- Embedding of `NormalizeConfig` from engine/spec.py: the model defines
exactly the two fields `lowercase` and `strip_whitespace`. -/
structure NormalizeConfig where
  lowercase : Bool
  strip_whitespace : Bool

/-- Python dynamic attribute access on a `NormalizeConfig` instance: the
defined fields resolve, any other attribute name does not (and reading it
raises `AttributeError`). -/
def NormalizeConfig.getattr (nc : NormalizeConfig) (attr : String) : Option Bool :=
  if attr = "lowercase" then some nc.lowercase
  else if attr = "strip_whitespace" then some nc.strip_whitespace
  else none

/-- Embedding of `MetricArgs` from engine/spec.py. -/
structure MetricArgs where
  pred_path : String
  ref_path : String
  normalize : NormalizeConfig

/-- Embedding of `MetricConfig` from engine/spec.py. -/
structure MetricConfig where
  name : String
  type : String
  args : MetricArgs

/-- Embedding of `ScoringConfig` from engine/spec.py. -/
structure ScoringConfig where
  metrics : List MetricConfig
  primary_metric : String

/-- Embedding of `AggregateConfig` from engine/spec.py. -/
structure AggregateConfig where
  name : String
  type : String
  metric : String

/-- Embedding of `ReportingConfig` from engine/spec.py. -/
structure ReportingConfig where
  aggregate : List AggregateConfig

/-- Embedding of `BenchmarkSpec` from engine/spec.py; the version is an
integer or a string. -/
structure BenchmarkSpec where
  id : String
  name : String
  version : String ⊕ Int
  dataset : DatasetConfig
  contract : ContractConfig
  scoring : ScoringConfig
  reporting : ReportingConfig

/-- Embedding of `Case` from engine/dataset.py. -/
structure Case where
  id : String
  input : List (String × Json)
  reference : List (String × Json)

/-- Embedding of `ErrorInfo` from engine/results.py. -/
structure ErrorInfo where
  code : String
  message : String
  http_status : Option Nat

/-- Embedding of `CaseResult` from engine/results.py; the metrics mapping
is an association list. -/
structure CaseResult where
  case_id : String
  extracted_output : Option Json
  metrics : Option (List (String × Bool))
  error : Option ErrorInfo

/-- Embedding of `SystemResult` from engine/results.py. -/
structure SystemResult where
  system_name : String
  primary_metric : String
  aggregates : List (String × ℚ)
  case_results : List CaseResult
  error_counts : List (String × Nat)

/-- Embedding of `RunResult` from engine/results.py; timestamps are
abstract clock readings. -/
structure RunResult where
  benchmark_id : String
  benchmark_version : String ⊕ Int
  dataset_path : String
  started_at : Nat
  finished_at : Nat
  systems : List SystemResult

/-- Python exceptions that escape the runner uncaught. -/
inductive PyExc where
  | attributeError (msg : String) : PyExc
  | typeError (msg : String) : PyExc
  | indexError (msg : String) : PyExc
  | keyError (key : String) : PyExc

/-- Lookup in the metrics mapping of a case result (Python dict access). -/
def lookupBool (k : String) : List (String × Bool) → Option Bool
  | [] => none
  | (k2, v) :: rest => if k2 = k then some v else lookupBool k rest

/-- Embedding of `_run_case` from engine/runner.py.  Invocation and
extraction failures are converted to `CaseResult.error`.  When both
succeed, line 71 of the source reads `metric_config.args.normalize.strip_punctuation`,
an attribute `NormalizeConfig` does not define, so the access raises
`AttributeError`; had the attribute existed, the subsequent call passes
five positional arguments to the four-parameter `score_exact_match`,
which would raise `TypeError`.  Both escape the function uncaught. -/
def _run_case (net : Net) (c : Case) (system : SystemConfig) (spec : BenchmarkSpec) : Except PyExc CaseResult :=
  let body := Json.obj c.input
  match invoke_case net system body with
  | .error e => .ok ⟨c.id, none, none, some ⟨e.code, e.message, e.http_status⟩⟩
  | .ok response_json =>
    let output_json_path := spec.contract.response.output_json_path
    match extract_output response_json output_json_path with
    | .error e => .ok ⟨c.id, none, none, some ⟨e.code, e.message, none⟩⟩
    | .ok _extracted_output =>
      match spec.scoring.metrics.head? with
      | none => .error (.indexError ("list index out of range"))
      | some metric_config =>
        match metric_config.args.normalize.getattr ("strip_punctuation") with
        | none =>
          .error (.attributeError
            ("\x27NormalizeConfig\x27 object has no attribute \x27strip_punctuation\x27"))
        | some _ =>
          .error (.typeError
            ("score_exact_match() takes 4 positional arguments but 5 were given"))

/-- One `Counter[code] += 1` step on the insertion-ordered counter of
engine/runner.py. -/
def counterAdd : List (String × Nat) → String → List (String × Nat)
  | [], k => [(k, 1)]
  | (k2, n) :: rest, k =>
    if k2 = k then (k2, n + 1) :: rest else (k2, n) :: counterAdd rest k

/-- Strict lexicographic comparison of character lists by code point,
Python's ordering on strings. -/
def lexLtChars : List Char → List Char → Bool
  | [], [] => false
  | [], _ :: _ => true
  | _ :: _, [] => false
  | a :: as, b :: bs => if a < b then true else if b < a then false else lexLtChars as bs

/-- Python's `<` on strings. -/
def strLexLt (a b : String) : Prop :=
  lexLtChars a.data b.data = true

/-- Python tuple comparison on `(key, count)` counter items, the order
`sorted` uses in engine/runner.py. -/
def pairLe (a b : String × Nat) : Prop :=
  lexLtChars a.1.data b.1.data = true ∨ (a.1 = b.1 ∧ a.2 ≤ b.2)

instance : DecidableRel pairLe := fun a b => by
  unfold pairLe
  exact inferInstance

/-- The per-case loop of `_run_system` in engine/runner.py, carrying the
accumulated case results, the error counter and the collected metric
values.  A truthiness test guards the metrics mapping (`elif result.metrics:`),
and the metric value is read with a dict access that raises `KeyError`
when the primary metric is absent. -/
def runCasesLoop (net : Net) (system : SystemConfig) (spec : BenchmarkSpec) (metric_name : String) :
    List Case → List CaseResult → List (String × Nat) → List Bool →
    Except PyExc (List CaseResult × List (String × Nat) × List Bool)
  | [], case_results, error_counter, metric_values =>
    .ok (case_results, error_counter, metric_values)
  | c :: rest, case_results, error_counter, metric_values =>
    match _run_case net c system spec with
    | .error exc => .error exc
    | .ok result =>
      let case_results := case_results ++ [result]
      match result.error with
      | some e =>
        runCasesLoop net system spec metric_name rest case_results
          (counterAdd error_counter e.code) metric_values
      | none =>
        match result.metrics with
        | none =>
          runCasesLoop net system spec metric_name rest case_results error_counter metric_values
        | some m =>
          if m = [] then
            runCasesLoop net system spec metric_name rest case_results error_counter metric_values
          else
            match lookupBool metric_name m with
            | none => .error (.keyError metric_name)
            | some b =>
              runCasesLoop net system spec metric_name rest case_results error_counter
                (metric_values ++ [b])

/-- Embedding of `_run_system` from engine/runner.py: read the primary
metric name and the single aggregate configuration, run every case in
order, aggregate the collected metric values, and sort the error counter
items for deterministic output. -/
def _run_system (net : Net) (cases : List Case) (system : SystemConfig) (spec : BenchmarkSpec) : Except PyExc SystemResult :=
  let metric_name := spec.scoring.primary_metric
  match spec.reporting.aggregate.head? with
  | none => .error (.indexError ("list index out of range"))
  | some aggregate_config =>
    match runCasesLoop net system spec metric_name cases [] [] [] with
    | .error exc => .error exc
    | .ok (case_results, error_counter, metric_values) =>
      let aggregate_value := aggregate_mean metric_values
      let sorted_error_counts := List.insertionSort pairLe error_counter
      .ok ⟨system.name, metric_name, [(aggregate_config.name, aggregate_value)],
        case_results, sorted_error_counts⟩

/-- The per-system loop of `run_benchmark`, in supplied order. -/
def runSystemsLoop (net : Net) (cases : List Case) (spec : BenchmarkSpec) :
    List SystemConfig → List SystemResult → Except PyExc (List SystemResult)
  | [], acc => .ok acc
  | s :: rest, acc =>
    match _run_system net cases s spec with
    | .error exc => .error exc
    | .ok r => runSystemsLoop net cases spec rest (acc ++ [r])

/-- Embedding of `run_benchmark` from engine/runner.py.  The two
wall-clock readings taken at the run boundaries are passed in as the
parameters `started_at` and `finished_at`. -/
def run_benchmark (net : Net) (spec : BenchmarkSpec) (cases : List Case)
    (systems : List SystemConfig) (started_at finished_at : Nat) : Except PyExc RunResult :=
  match runSystemsLoop net cases spec systems [] with
  | .error exc => .error exc
  | .ok system_results =>
    .ok ⟨spec.id, spec.version, spec.dataset.path, started_at, finished_at, system_results⟩

/-- JSON structural whitespace. -/
def jsonWS (c : Char) : Bool :=
  c = ' ' || c = '\t' || c = '\n' || c = '\r'

/-- Drops JSON structural whitespace. -/
def skipWS (cs : List Char) : List Char :=
  cs.dropWhile jsonWS

/-- Decimal digits to a natural number. -/
def digitsToNat (ds : List Char) : Nat :=
  ds.foldl (fun n c => n * 10 + (c.toNat - 48)) 0

/-- One-character JSON string escapes. -/
def escChar : Char → Option Char
  | '"' => some '"'
  | '\\' => some '\\'
  | '/' => some '/'
  | 'b' => some '\x08'
  | 'f' => some '\x0c'
  | 'n' => some '\n'
  | 'r' => some '\r'
  | 't' => some '\t'
  | _ => none

/-- Hexadecimal digit value. -/
def hexVal (c : Char) : Option Nat :=
  if c.isDigit then some (c.toNat - 48)
  else if 'a' ≤ c ∧ c ≤ 'f' then some (c.toNat - 87)
  else if 'A' ≤ c ∧ c ≤ 'F' then some (c.toNat - 55)
  else none

/-- Body of a JSON string after the opening quote: the decoded content
and the remainder after the closing quote. -/
def parseStringBody : List Char → Option (List Char × List Char)
  | [] => none
  | '"' :: rest => some ([], rest)
  | '\\' :: 'u' :: h1 :: h2 :: h3 :: h4 :: rest =>
    match hexVal h1, hexVal h2, hexVal h3, hexVal h4 with
    | some a, some b, some c, some d =>
      match parseStringBody rest with
      | some (content, r) => some (Char.ofNat (((a * 16 + b) * 16 + c) * 16 + d) :: content, r)
      | none => none
    | _, _, _, _ => none
  | '\\' :: e :: rest =>
    match escChar e with
    | none => none
    | some c =>
      match parseStringBody rest with
      | some (content, r) => some (c :: content, r)
      | none => none
  | c :: rest =>
    match parseStringBody rest with
    | some (content, r) => some (c :: content, r)
    | none => none

/-- A JSON natural-number literal: digits with no redundant leading zero,
not followed by a fraction or exponent (the model has integer numbers
only). -/
def parseNatNum (cs : List Char) : Option (Nat × List Char) :=
  let ds := cs.takeWhile Char.isDigit
  let rest := cs.dropWhile Char.isDigit
  if ds.isEmpty then none
  else if ds.length > 1 && ds.headD '0' = '0' then none
  else
    match rest with
    | c :: _ => if c = '.' || c = 'e' || c = 'E' then none else some (digitsToNat ds, rest)
    | [] => some (digitsToNat ds, rest)

/-- A JSON integer literal with optional minus sign. -/
def parseIntNum (cs : List Char) : Option (Int × List Char) :=
  match cs with
  | '-' :: rest => (parseNatNum rest).map (fun p => (-(p.1 : Int), p.2))
  | _ => (parseNatNum cs).map (fun p => ((p.1 : Int), p.2))

/-- Python dict insertion while building an object literal: a repeated
key keeps its first position and takes the new value. -/
def dictInsert : List (String × Json) → String → Json → List (String × Json)
  | [], k, v => [(k, v)]
  | (k2, v2) :: rest, k, v =>
    if k2 = k then (k2, v) :: rest else (k2, v2) :: dictInsert rest k v

mutual

/-- Fuelled recursive-descent JSON value parser modelling `json.loads`,
returning the value and the unconsumed remainder. -/
def parseValue : Nat → List Char → Except String (Json × List Char)
  | 0, _ => .error ("Expecting value")
  | fuel + 1, cs =>
    match skipWS cs with
    | [] => .error ("Expecting value")
    | 'n' :: rest =>
      if rest.take 3 = ['u', 'l', 'l'] then .ok (.null, rest.drop 3)
      else .error ("Expecting value")
    | 't' :: rest =>
      if rest.take 3 = ['r', 'u', 'e'] then .ok (.bool true, rest.drop 3)
      else .error ("Expecting value")
    | 'f' :: rest =>
      if rest.take 4 = ['a', 'l', 's', 'e'] then .ok (.bool false, rest.drop 4)
      else .error ("Expecting value")
    | '"' :: rest =>
      match parseStringBody rest with
      | none => .error ("Unterminated string starting at")
      | some (content, r) => .ok (.str (String.mk content), r)
    | '[' :: rest =>
      match skipWS rest with
      | ']' :: r => .ok (.arr [], r)
      | other => parseElems fuel other []
    | '\x7b' :: rest =>
      match skipWS rest with
      | '\x7d' :: r => .ok (.obj [], r)
      | other => parseMembers fuel other []
    | other =>
      match parseIntNum other with
      | some (n, r) => .ok (.num n, r)
      | none => .error ("Expecting value")

/-- Comma-separated array elements up to the closing bracket. -/
def parseElems : Nat → List Char → List Json → Except String (Json × List Char)
  | 0, _, _ => .error ("Expecting value")
  | fuel + 1, cs, acc =>
    match parseValue fuel cs with
    | .error e => .error e
    | .ok (v, rest) =>
      match skipWS rest with
      | ',' :: r => parseElems fuel r (acc ++ [v])
      | ']' :: r => .ok (.arr (acc ++ [v]), r)
      | _ => .error ("Expecting \x27,\x27 delimiter")

/-- Comma-separated object members up to the closing brace. -/
def parseMembers : Nat → List Char → List (String × Json) → Except String (Json × List Char)
  | 0, _, _ => .error ("Expecting value")
  | fuel + 1, cs, acc =>
    match skipWS cs with
    | '"' :: rest =>
      match parseStringBody rest with
      | none => .error ("Unterminated string starting at")
      | some (key, afterKey) =>
        match skipWS afterKey with
        | ':' :: afterColon =>
          match parseValue fuel afterColon with
          | .error e => .error e
          | .ok (v, rest2) =>
            let acc := dictInsert acc (String.mk key) v
            match skipWS rest2 with
            | ',' :: r => parseMembers fuel r acc
            | '\x7d' :: r => .ok (.obj acc, r)
            | _ => .error ("Expecting \x27,\x27 delimiter")
        | _ => .error ("Expecting \x27:\x27 delimiter")
    | _ => .error ("Expecting property name enclosed in double quotes")

end

/-- Modelling of `json.loads` on one line of text: parse one value and
require only whitespace after it. -/
def json_loads (s : String) : Except String Json :=
  match parseValue (s.length + 1) s.data with
  | .error e => .error e
  | .ok (v, rest) =>
    if skipWS rest = [] then .ok v else .error ("Extra data")

/-- Embedding of `Case.model_validate` from engine/dataset.py (pydantic
field validation followed by the non-empty model validator): `id` a
non-empty string, `input` and `reference` non-empty objects. -/
def caseValidate (data : Json) : Except String Case :=
  match data with
  | .obj kvs =>
    match lookupStr ("id") kvs with
    | none => .error ("Field required: id")
    | some (.str idStr) =>
      if idStr = "" then .error ("String should have at least 1 character: id")
      else
        match lookupStr ("input") kvs with
        | none => .error ("Field required: input")
        | some (.obj inputKvs) =>
          match lookupStr ("reference") kvs with
          | none => .error ("Field required: reference")
          | some (.obj refKvs) =>
            if inputKvs.isEmpty then .error ("input must be a non-empty object")
            else if refKvs.isEmpty then .error ("reference must be a non-empty object")
            else .ok ⟨idStr, inputKvs, refKvs⟩
          | some _ => .error ("Input should be a valid dictionary: reference")
        | some _ => .error ("Input should be a valid dictionary: input")
    | some _ => .error ("Input should be a valid string: id")
  | _ => .error ("Input should be a valid dictionary")

/-- The failures `load_dataset_jsonl` reports, with the line number the
source interpolates into each message. -/
inductive DatasetErr where
  | fileEmpty : DatasetErr
  | invalidJson (line : Nat) (e : String) : DatasetErr
  | notObject (line : Nat) : DatasetErr
  | invalidCase (line : Nat) (e : String) : DatasetErr
  | duplicateId (id : String) (line : Nat) : DatasetErr
  | noValidCases : DatasetErr

/-- The line number a dataset loading failure reports, when it reports
one. -/
def DatasetErr.line? : DatasetErr → Option Nat
  | .invalidJson n _ => some n
  | .notObject n => some n
  | .invalidCase n _ => some n
  | .duplicateId _ n => some n
  | _ => none

/-- The message text engine/dataset.py attaches to each loading failure. -/
def DatasetErr.render : DatasetErr → String
  | .fileEmpty => "Dataset file is empty"
  | .invalidJson n e => "Invalid JSON on line " ++ toString n ++ ": " ++ e
  | .notObject n => "Line " ++ toString n ++ ": Each line must be a JSON object"
  | .invalidCase n e => "Invalid case on line " ++ toString n ++ ": " ++ e
  | .duplicateId id n => "Duplicate case ID \x27" ++ id ++ "\x27 on line " ++ toString n
  | .noValidCases => "Dataset contains no valid cases"

/-- One iteration of the per-line loop of `load_dataset_jsonl`: strip
the line, skip it when blank (the counter still advances), parse it,
require an object, validate the case, reject a duplicate id; on success
extend the seen-id set and the case list. -/
def lineStep (line_num : Nat) (seen_ids : List String) (cases : List Case) (l : String) :
    Except DatasetErr (Nat × List String × List Case) :=
  let line := pyStrip l
  if line = "" then .ok (line_num + 1, seen_ids, cases)
  else
    match json_loads line with
    | .error e => .error (.invalidJson line_num e)
    | .ok data =>
      if !data.isObj then .error (.notObject line_num)
      else
        match caseValidate data with
        | .error e => .error (.invalidCase line_num e)
        | .ok c =>
          if seen_ids.contains c.id then .error (.duplicateId c.id line_num)
          else .ok (line_num + 1, seen_ids ++ [c.id], cases ++ [c])

/-- The enumerated per-line loop of `load_dataset_jsonl`. -/
def processLines (line_num : Nat) (seen_ids : List String) (cases : List Case) :
    List String → Except DatasetErr (Nat × List String × List Case)
  | [] => .ok (line_num, seen_ids, cases)
  | l :: rest =>
    match lineStep line_num seen_ids cases l with
    | .error e => .error e
    | .ok (n2, s2, a2) => processLines n2 s2 a2 rest

/-- The check following the loop in engine/dataset.py: a run that ended
with no valid cases is rejected. -/
def finalizeCases : Except DatasetErr (Nat × List String × List Case) →
    Except DatasetErr (List Case)
  | .error e => .error e
  | .ok (_, _, cases) => if cases.isEmpty then .error (.noValidCases) else .ok cases

/-- Embedding of `load_dataset_jsonl` from engine/dataset.py, on the file
content: the whole content is stripped, split on newlines, checked for
emptiness, and the lines run through the enumerated loop starting at 1. -/
def load_dataset_jsonl (content : String) : Except DatasetErr (List Case) :=
  let lines := pySplit '\n' (pyStrip content)
  if lines = [] ∨ (lines.length = 1 ∧ pyStrip (lines.headD ("")) = "") then
    .error (.fileEmpty)
  else
    finalizeCases (processLines 1 [] [] lines)

/-- Reference loader numbering lines by their position in the original
file: the content is split on newlines without the initial whole-content
strip, an entirely blank file is empty, and the same enumerated loop
runs from 1. -/
def load_dataset_ref (content : String) : Except DatasetErr (List Case) :=
  if pyStrip content = "" then .error (.fileEmpty)
  else finalizeCases (processLines 1 [] [] (pySplit '\n' content))

/-- The reported line number of a dataset loading outcome. -/
def errLineOf : Except DatasetErr (List Case) → Option Nat
  | .error e => e.line?
  | .ok _ => none

/-! Test fixtures used to evaluate the embedded pipeline at concrete
inputs: a transport answering every request with a fixed JSON object, a
validated v1-min specification, one case, one system. -/

/-- A transport always answering 200 with the body holding answer "2". -/
def netAnswer : Net :=
  fun _ _ _ => .response 200 (some (Json.obj [(("answer"), Json.str ("2"))]))

/-- A transport timing out on the first fixture input and failing at the
connection level on every other body. -/
def netErrors : Net :=
  fun _ body _ =>
    match body with
    | .obj ((("q"), Json.str ("a")) :: _) => .timeoutExc
    | _ => .requestExc ("connection refused")

/-- A validated v1-min benchmark specification fixture. -/
def specFix : BenchmarkSpec :=
  ⟨("bench"), ("Bench"), .inr 1, ⟨("cases.jsonl")⟩,
    ⟨("http"), ⟨("POST"), ("$.input")⟩, ⟨("$.answer")⟩⟩,
    ⟨[⟨("exact_match"), ("exact_match"), ⟨("$"), ("$.answer"), ⟨true, true⟩⟩⟩], ("exact_match")⟩,
    ⟨[⟨("exact_match_rate"), ("mean"), ("exact_match")⟩]⟩⟩

/-- A dataset case fixture. -/
def caseFix : Case :=
  ⟨("c1"), [(("q"), Json.str ("a"))], [(("answer"), Json.str ("2"))]⟩

/-- A second dataset case fixture. -/
def caseFix2 : Case :=
  ⟨("c2"), [(("q"), Json.str ("b"))], [(("answer"), Json.str ("4"))]⟩

/-- A system fixture. -/
def sysFix : SystemConfig :=
  ⟨("s"), ("http://x")⟩

/-- The case result the fixture timeout case produces. -/
def crTimeout : CaseResult :=
  ⟨("c1"), none, none,
    some ⟨("timeout"), ("Request to http://x timed out after 30.0s"), none⟩⟩

/-- The case result the fixture connection-failure case produces. -/
def crHttpErr : CaseResult :=
  ⟨("c2"), none, none,
    some ⟨("http_error"), ("Request to http://x failed: connection refused"), none⟩⟩

/-- The system result of the all-errors fixture run. -/
def sysresFix : SystemResult :=
  ⟨("s"), ("exact_match"), [(("exact_match_rate"), 0)], [crTimeout, crHttpErr],
    [(("http_error"), 1), (("timeout"), 1)]⟩

/-- The run result of the all-errors fixture run. -/
def runresFix : RunResult :=
  ⟨("bench"), .inr 1, ("cases.jsonl"), 0, 0, [sysresFix]⟩

/-- Agreement of two loop outcomes up to the line counter: the same
error, or success with the same seen ids and cases. -/
def sameOutcome : Except DatasetErr (Nat × List String × List Case) →
    Except DatasetErr (Nat × List String × List Case) → Prop
  | .error e1, .error e2 => e1 = e2
  | .ok (_, s1, a1), .ok (_, s2, a2) => s1 = s2 ∧ a1 = a2
  | _, _ => False

/-- The file content does not begin with a whitespace character (an
empty file qualifies). -/
def noLeadingWS (s : String) : Bool :=
  match s.data with
  | [] => true
  | c :: _ => !pyIsSpace c

/-! Helper lemmas. -/

lemma dropWhile_head_not {α : Type} (p : α → Bool) (l : List α) :
    ∀ c, (l.dropWhile p).head? = some c → p c = false := by
  induction l with
  | nil => intro c h; simp at h
  | cons x xs ih =>
    intro c h
    by_cases hx : p x = true
    · rw [List.dropWhile_cons_of_pos hx] at h
      exact ih c h
    · rw [List.dropWhile_cons_of_neg hx] at h
      injection h with h
      rw [← h]
      rw [Bool.not_eq_true] at hx
      exact hx

lemma getLast?_cons_ne {α : Type} (x : α) (xs : List α) (h : xs ≠ []) :
    (x :: xs).getLast? = xs.getLast? := by
  cases xs with
  | nil => exact absurd rfl h
  | cons y ys => exact List.getLast?_cons_cons

lemma getLast?_dropWhile_ne {α : Type} (p : α → Bool) (l : List α)
    (h : l.dropWhile p ≠ []) : (l.dropWhile p).getLast? = l.getLast? := by
  induction l with
  | nil => simp at h
  | cons x xs ih =>
    by_cases hx : p x = true
    · rw [List.dropWhile_cons_of_pos hx] at h ⊢
      have hxs : xs ≠ [] := by
        intro he
        rw [he] at h
        simp at h
      rw [ih h, getLast?_cons_ne x xs hxs]
    · rw [List.dropWhile_cons_of_neg hx]

lemma dropWhile_eq_self_of_head {α : Type} (p : α → Bool) (l : List α)
    (h : ∀ c, l.head? = some c → p c = false) : l.dropWhile p = l := by
  cases l with
  | nil => rfl
  | cons x xs =>
    have := h x rfl
    rw [List.dropWhile_cons_of_neg (by rw [this]; simp)]

/-- The stripped text sits inside the original between an all-whitespace
prefix and an all-whitespace suffix, and neither of its ends is
whitespace. -/
lemma pyStripData_spec (l : List Char) :
    ∃ pre post : List Char,
      l = pre ++ pyStripData l ++ post ∧
      pre.all pyIsSpace = true ∧ post.all pyIsSpace = true ∧
      (∀ c, (pyStripData l).head? = some c → pyIsSpace c = false) ∧
      (∀ c, (pyStripData l).getLast? = some c → pyIsSpace c = false) := by
  refine ⟨l.takeWhile pyIsSpace,
    ((l.dropWhile pyIsSpace).reverse.takeWhile pyIsSpace).reverse, ?_, ?_, ?_, ?_, ?_⟩
  · have h1 : l.takeWhile pyIsSpace ++ l.dropWhile pyIsSpace = l :=
      List.takeWhile_append_dropWhile pyIsSpace l
    have h2 : (l.dropWhile pyIsSpace).reverse.takeWhile pyIsSpace ++
        (l.dropWhile pyIsSpace).reverse.dropWhile pyIsSpace = (l.dropWhile pyIsSpace).reverse :=
      List.takeWhile_append_dropWhile pyIsSpace (l.dropWhile pyIsSpace).reverse
    have h3 : l.dropWhile pyIsSpace =
        pyStripData l ++ ((l.dropWhile pyIsSpace).reverse.takeWhile pyIsSpace).reverse := by
      have h := congrArg List.reverse h2
      rw [List.reverse_append, List.reverse_reverse] at h
      exact h.symm
    calc l = l.takeWhile pyIsSpace ++ l.dropWhile pyIsSpace := h1.symm
      _ = l.takeWhile pyIsSpace ++
          (pyStripData l ++ ((l.dropWhile pyIsSpace).reverse.takeWhile pyIsSpace).reverse) := by
        exact congrArg (l.takeWhile pyIsSpace ++ ·) h3
      _ = l.takeWhile pyIsSpace ++ pyStripData l ++
          ((l.dropWhile pyIsSpace).reverse.takeWhile pyIsSpace).reverse :=
        (List.append_assoc _ _ _).symm
  · exact List.all_takeWhile
  · rw [List.all_reverse]
    exact List.all_takeWhile
  · intro c hc
    unfold pyStripData at hc
    rw [List.head?_reverse] at hc
    by_cases hnil : (l.dropWhile pyIsSpace).reverse.dropWhile pyIsSpace = []
    · rw [hnil] at hc
      simp at hc
    · rw [getLast?_dropWhile_ne pyIsSpace (l.dropWhile pyIsSpace).reverse hnil] at hc
      rw [List.getLast?_reverse] at hc
      exact dropWhile_head_not pyIsSpace l c hc
  · intro c hc
    unfold pyStripData at hc
    rw [List.getLast?_reverse] at hc
    exact dropWhile_head_not pyIsSpace (l.dropWhile pyIsSpace).reverse c hc

/-- Sum of booleans mapped to one and zero equals the count of true
entries. -/
lemma sum_map_ite (v : List Bool) :
    ((v.map (fun b => if b then (1 : ℚ) else 0)).sum) = (v.count true : ℚ) := by
  induction v with
  | nil => simp
  | cons b rest ih =>
    cases b <;> simp [List.count_cons, ih] <;> push_cast <;> ring

/-- C9: Evaluating the root path alone is the identity on every value,
including null, primitives, and nested objects. -/
theorem c9_root_identity (v : Json) : eval_jsonpath v ("$") = .ok v := rfl

/-- C8: The mean aggregator returns the count of true entries divided by
the length for a non-empty boolean list, and zero for the empty list. -/
theorem c8_aggregate_mean :
    (∀ v : List Bool, v ≠ [] →
      aggregate_mean v = (v.count true : ℚ) / (v.length : ℚ)) ∧
    aggregate_mean ([] : List Bool) = 0 := by
  constructor
  · intro v hv
    unfold aggregate_mean
    rw [if_neg hv, sum_map_ite]
  · rfl

/-- Witness for C8 at the list with two true entries out of three. -/
theorem c8_witness :
    aggregate_mean [true, true, false] =
      (([true, true, false].count true : ℚ)) / (([true, true, false].length : ℚ)) :=
  c8_aggregate_mean.1 [true, true, false] (by decide)

/-- C3: With the transport held fixed, two executions of the run
orchestrator agree on every result field except the two timestamps
(which are the only places the clock readings flow to). -/
theorem c3_determinism (net : Net) (spec : BenchmarkSpec) (cases : List Case)
    (systems : List SystemConfig) (t1 t2 t1' t2' : Nat) :
    match run_benchmark net spec cases systems t1 t2,
          run_benchmark net spec cases systems t1' t2' with
    | .ok r1, .ok r2 =>
      r1.benchmark_id = r2.benchmark_id ∧ r1.benchmark_version = r2.benchmark_version ∧
      r1.dataset_path = r2.dataset_path ∧ r1.systems = r2.systems
    | .error e1, .error e2 => e1 = e2
    | _, _ => False := by
  unfold run_benchmark
  cases runSystemsLoop net cases spec systems [] <;> simp

/-- C5: One invocation returns the parsed JSON of a 2xx response, or
fails with exactly one of the codes timeout (transport timeout under the
fixed 30-unit deadline), http_error (connection failure with no status,
or a non-2xx status carried in http_status), or invalid_json (2xx body
that does not parse). -/
theorem c5_invoke_case (net : Net) (system : SystemConfig) (body : Json) :
    (match net system.endpoint body _DEFAULT_TIMEOUT with
     | .timeoutExc => ∃ m, invoke_case net system body = .error ⟨("timeout"), m, none⟩
     | .requestExc _ => ∃ m, invoke_case net system body = .error ⟨("http_error"), m, none⟩
     | .response status bodyJson =>
       if is_success status = true then
         match bodyJson with
         | some j => invoke_case net system body = .ok j
         | none => ∃ m, invoke_case net system body = .error ⟨("invalid_json"), m, none⟩
       else ∃ m, invoke_case net system body = .error ⟨("http_error"), m, some status⟩) ∧
    (∀ e, invoke_case net system body = .error e →
      e.code = "timeout" ∨ e.code = "http_error" ∨ e.code = "invalid_json") := by
  constructor
  · cases hn : net system.endpoint body _DEFAULT_TIMEOUT with
    | timeoutExc =>
      exact ⟨("Request to " ++ system.endpoint ++ " timed out after 30.0s"),
        by unfold invoke_case; rw [hn]⟩
    | requestExc m =>
      exact ⟨("Request to " ++ system.endpoint ++ " failed: " ++ m),
        by unfold invoke_case; rw [hn]⟩
    | response status bodyJson =>
      dsimp only
      by_cases hs : is_success status = true
      · rw [if_pos hs]
        cases bodyJson with
        | some j => unfold invoke_case; rw [hn]; simp [hs]
        | none =>
          exact ⟨("Response from " ++ system.endpoint ++ " is not valid JSON"),
            by unfold invoke_case; rw [hn]; simp [hs]⟩
      · rw [if_neg hs]
        exact ⟨("Request to " ++ system.endpoint ++ " returned status " ++ toString status),
          by unfold invoke_case; rw [hn]; simp [hs]⟩
  · intro e he
    unfold invoke_case at he
    cases hn : net system.endpoint body _DEFAULT_TIMEOUT with
    | timeoutExc =>
      rw [hn] at he
      dsimp only at he
      injection he with he
      rw [← he]
      exact Or.inl rfl
    | requestExc m =>
      rw [hn] at he
      dsimp only at he
      injection he with he
      rw [← he]
      exact Or.inr (Or.inl rfl)
    | response status bodyJson =>
      rw [hn] at he
      dsimp only at he
      by_cases hs : is_success status = true
      · rw [if_pos hs] at he
        cases bodyJson with
        | some j => simp at he
        | none =>
          injection he with he
          rw [← he]
          exact Or.inr (Or.inr rfl)
      · rw [if_neg hs] at he
        injection he with he
        rw [← he]
        exact Or.inr (Or.inl rfl)

/-- Witness for C5 at a transport that always times out. -/
theorem c5_witness :
    (invoke_case (fun _ _ _ => HttpOutcome.timeoutExc) sysFix Json.null).map (fun _ => ("ok")) =
      .error ⟨("timeout"), ("Request to http://x timed out after 30.0s"), none⟩ ∧
    (("timeout") = "timeout" ∨ ("timeout") = "http_error" ∨ ("timeout") = "invalid_json") := by
  refine ⟨rfl, ?_⟩
  have h := (c5_invoke_case (fun _ _ _ => HttpOutcome.timeoutExc) sysFix Json.null).2
    ⟨("timeout"), ("Request to http://x timed out after 30.0s"), none⟩ rfl
  exact h

/-- Reading the undefined attribute `strip_punctuation` from any
`NormalizeConfig` fails. -/
lemma getattr_strip_punctuation (nc : NormalizeConfig) :
    nc.getattr ("strip_punctuation") = none := rfl

/-- Every case result `_run_case` actually returns has an empty metrics
field: the only code path that would populate it is cut short by the
attribute error. -/
lemma run_case_ok_metrics_none (net : Net) (c : Case) (system : SystemConfig)
    (spec : BenchmarkSpec) (r : CaseResult)
    (h : _run_case net c system spec = .ok r) : r.metrics = none := by
  unfold _run_case at h
  dsimp only at h
  cases hi : invoke_case net system (Json.obj c.input) with
  | error e =>
    rw [hi] at h
    dsimp only at h
    injection h with h
    rw [← h]
  | ok j =>
    rw [hi] at h
    dsimp only at h
    cases he : extract_output j spec.contract.response.output_json_path with
    | error e =>
      rw [he] at h
      dsimp only at h
      injection h with h
      rw [← h]
    | ok ex =>
      rw [he] at h
      dsimp only at h
      cases hm : spec.scoring.metrics.head? with
      | none =>
        rw [hm] at h
        exact absurd h (by simp)
      | some mc =>
        rw [hm] at h
        dsimp only at h
        rw [getattr_strip_punctuation] at h
        exact absurd h (by simp)

/-- Provenance of the case results accumulated by the per-case loop:
each one was already in the accumulator or was returned by `_run_case`. -/
lemma runCasesLoop_mem (net : Net) (system : SystemConfig) (spec : BenchmarkSpec)
    (metric_name : String) :
    ∀ (cs : List Case) (acc : List CaseResult) (counter : List (String × Nat))
      (vals : List Bool) (crs : List CaseResult) (cnt : List (String × Nat)) (mv : List Bool),
      runCasesLoop net system spec metric_name cs acc counter vals = .ok (crs, cnt, mv) →
      ∀ cr ∈ crs, cr ∈ acc ∨ ∃ c, _run_case net c system spec = .ok cr := by
  intro cs
  induction cs with
  | nil =>
    intro acc counter vals crs cnt mv h cr hcr
    unfold runCasesLoop at h
    injection h with h
    rw [Prod.mk.injEq] at h
    rw [← h.1] at hcr
    exact Or.inl hcr
  | cons c rest ih =>
    intro acc counter vals crs cnt mv h cr hcr
    unfold runCasesLoop at h
    cases hrc : _run_case net c system spec with
    | error e =>
      rw [hrc] at h
      exact absurd h (by simp)
    | ok result =>
      rw [hrc] at h
      dsimp only at h
      have hmn := run_case_ok_metrics_none net c system spec result hrc
      cases hre : result.error with
      | some e =>
        rw [hre] at h
        dsimp only at h
        rcases ih (acc ++ [result]) (counterAdd counter e.code) vals crs cnt mv h cr hcr with hin | hex
        · rcases List.mem_append.mp hin with ha | hb
          · exact Or.inl ha
          · rw [List.mem_singleton.mp hb]
            exact Or.inr ⟨c, hrc⟩
        · exact Or.inr hex
      | none =>
        rw [hre] at h
        dsimp only at h
        rw [hmn] at h
        dsimp only at h
        rcases ih (acc ++ [result]) counter vals crs cnt mv h cr hcr with hin | hex
        · rcases List.mem_append.mp hin with ha | hb
          · exact Or.inl ha
          · rw [List.mem_singleton.mp hb]
            exact Or.inr ⟨c, hrc⟩
        · exact Or.inr hex

/-- Provenance of the system results accumulated by the per-system loop. -/
lemma runSystemsLoop_mem (net : Net) (cases : List Case) (spec : BenchmarkSpec) :
    ∀ (systems : List SystemConfig) (acc : List SystemResult) (srs : List SystemResult),
      runSystemsLoop net cases spec systems acc = .ok srs →
      ∀ sr ∈ srs, sr ∈ acc ∨ ∃ sys, _run_system net cases sys spec = .ok sr := by
  intro systems
  induction systems with
  | nil =>
    intro acc srs h sr hsr
    unfold runSystemsLoop at h
    injection h with h
    rw [← h] at hsr
    exact Or.inl hsr
  | cons s rest ih =>
    intro acc srs h sr hsr
    unfold runSystemsLoop at h
    cases hrs : _run_system net cases s spec with
    | error e =>
      rw [hrs] at h
      exact absurd h (by simp)
    | ok r =>
      rw [hrs] at h
      rcases ih (acc ++ [r]) srs h sr hsr with hin | hex
      · rcases List.mem_append.mp hin with ha | hb
        · exact Or.inl ha
        · rw [List.mem_singleton.mp hb]
          exact Or.inr ⟨s, hrs⟩
      · exact Or.inr hex

/-- The case results of any system result `_run_system` returns all come
from `_run_case`. -/
lemma run_system_case_results (net : Net) (cases : List Case) (system : SystemConfig)
    (spec : BenchmarkSpec) (sr : SystemResult)
    (h : _run_system net cases system spec = .ok sr) :
    ∀ cr ∈ sr.case_results, ∃ c, _run_case net c system spec = .ok cr := by
  unfold _run_system at h
  cases ha : spec.reporting.aggregate.head? with
  | none =>
    rw [ha] at h
    exact absurd h (by simp)
  | some ac =>
    rw [ha] at h
    dsimp only at h
    cases hl : runCasesLoop net system spec spec.scoring.primary_metric cases [] [] [] with
    | error e =>
      rw [hl] at h
      exact absurd h (by simp)
    | ok out =>
      rw [hl] at h
      obtain ⟨crs, cnt, mv⟩ := out
      dsimp only at h
      injection h with h
      intro cr hcr
      rw [← h] at hcr
      dsimp only at hcr
      rcases runCasesLoop_mem net system spec spec.scoring.primary_metric cases [] [] []
        crs cnt mv hl cr hcr with hin | hex
      · simp at hin
      · exact hex

/-- C2: Whenever invocation and extraction both succeed, `_run_case`
raises the uncaught `AttributeError` for the undefined field
`strip_punctuation` of `NormalizeConfig` (and the call it was about to
make passes five positional arguments to the four-parameter
`score_exact_match`); consequently no case result a run returns ever has
a populated metrics mapping. -/
theorem c2_scoring_stage_crashes :
    (∀ (net : Net) (c : Case) (system : SystemConfig) (spec : BenchmarkSpec)
       (j ex : Json) (mc : MetricConfig),
       spec.scoring.metrics.head? = some mc →
       invoke_case net system (Json.obj c.input) = .ok j →
       extract_output j spec.contract.response.output_json_path = .ok ex →
       _run_case net c system spec = .error (.attributeError
         ("\x27NormalizeConfig\x27 object has no attribute \x27strip_punctuation\x27"))) ∧
    (∀ (net : Net) (spec : BenchmarkSpec) (cases : List Case)
       (systems : List SystemConfig) (t1 t2 : Nat) (r : RunResult),
       run_benchmark net spec cases systems t1 t2 = .ok r →
       ∀ sr ∈ r.systems, ∀ cr ∈ sr.case_results, cr.metrics = none) := by
  constructor
  · intro net c system spec j ex mc hm hi he
    unfold _run_case
    dsimp only
    rw [hi]
    dsimp only
    rw [he]
    dsimp only
    rw [hm]
    dsimp only
    rw [getattr_strip_punctuation]
  · intro net spec cases systems t1 t2 r h sr hsr cr hcr
    unfold run_benchmark at h
    cases hl : runSystemsLoop net cases spec systems [] with
    | error e =>
      rw [hl] at h
      exact absurd h (by simp)
    | ok srs =>
      rw [hl] at h
      injection h with h
      rw [← h] at hsr
      dsimp only at hsr
      rcases runSystemsLoop_mem net cases spec systems [] srs hl sr hsr with hin | ⟨sys, hsys⟩
      · simp at hin
      · obtain ⟨c, hc⟩ := run_system_case_results net cases sys spec sr hsys cr hcr
        exact run_case_ok_metrics_none net c sys spec cr hc

/-- Witness for C2: the fixture system answers successfully and the case
run crashes with the attribute error; the all-errors fixture run returns
a document whose first case result has no metrics. -/
theorem c2_witness :
    _run_case netAnswer caseFix sysFix specFix = .error (.attributeError
      ("\x27NormalizeConfig\x27 object has no attribute \x27strip_punctuation\x27")) ∧
    crTimeout.metrics = none := by
  constructor
  · exact c2_scoring_stage_crashes.1 netAnswer caseFix sysFix specFix
      (Json.obj [(("answer"), Json.str ("2"))]) (Json.str ("2"))
      ⟨("exact_match"), ("exact_match"), ⟨("$"), ("$.answer"), ⟨true, true⟩⟩⟩ rfl rfl rfl
  · exact c2_scoring_stage_crashes.2 netErrors specFix [caseFix, caseFix2] [sysFix] 0 0
      runresFix rfl sysresFix (List.Mem.head _) crTimeout (List.Mem.head _)

/-- C1: At a concrete valid spec, dataset, and system whose response
passes invocation and extraction, the run orchestrator does not return a
result document at all: it raises the scoring-stage `AttributeError`. -/
theorem c1_run_crashes_on_successful_case :
    run_benchmark netAnswer specFix [caseFix] [sysFix] 0 0 =
      .error (.attributeError
        ("\x27NormalizeConfig\x27 object has no attribute \x27strip_punctuation\x27")) := rfl

lemma lexLtChars_trichot : ∀ a b : List Char,
    lexLtChars a b = true ∨ a = b ∨ lexLtChars b a = true := by
  intro a
  induction a with
  | nil =>
    intro b
    cases b with
    | nil => exact Or.inr (Or.inl rfl)
    | cons y ys => exact Or.inl rfl
  | cons x xs ih =>
    intro b
    cases b with
    | nil => exact Or.inr (Or.inr rfl)
    | cons y ys =>
      rcases lt_trichotomy x y with hxy | hxy | hxy
      · left
        simp [lexLtChars, hxy]
      · subst hxy
        rcases ih ys with h | h | h
        · left
          simp [lexLtChars, lt_irrefl, h]
        · right
          left
          rw [h]
        · right
          right
          simp [lexLtChars, lt_irrefl, h]
      · right
        right
        simp [lexLtChars, hxy]

lemma lexLtChars_trans : ∀ a b c : List Char,
    lexLtChars a b = true → lexLtChars b c = true → lexLtChars a c = true := by
  intro a
  induction a with
  | nil =>
    intro b c hab hbc
    cases c with
    | nil =>
      cases b with
      | nil => exact absurd hab (by simp [lexLtChars])
      | cons y ys => exact absurd hbc (by simp [lexLtChars])
    | cons z zs => simp [lexLtChars]
  | cons x xs ih =>
    intro b c hab hbc
    cases b with
    | nil => exact absurd hab (by simp [lexLtChars])
    | cons y ys =>
      cases c with
      | nil => exact absurd hbc (by simp [lexLtChars])
      | cons z zs =>
        rcases lt_trichotomy x y with h1 | h1 | h1
        · rcases lt_trichotomy y z with h2 | h2 | h2
          · have h3 : x < z := lt_trans h1 h2
            simp [lexLtChars, h3]
          · subst h2
            simp [lexLtChars, h1]
          · have hny : ¬ y < z := asymm h2
            simp [lexLtChars, hny, h2] at hbc
        · subst h1
          simp only [lexLtChars, lt_irrefl, if_false] at hab
          rcases lt_trichotomy x z with h2 | h2 | h2
          · simp [lexLtChars, h2]
          · subst h2
            simp only [lexLtChars, lt_irrefl, if_false] at hbc ⊢
            exact ih ys zs hab hbc
          · have hnz : ¬ x < z := asymm h2
            simp [lexLtChars, hnz, h2] at hbc
        · have hnx : ¬ x < y := asymm h1
          simp [lexLtChars, hnx, h1] at hab

lemma str_data_inj {a b : String} (h : a.data = b.data) : a = b := by
  cases a
  cases b
  exact congrArg String.mk h

instance pairLeTotal : IsTotal (String × Nat) pairLe := by
  constructor
  intro a b
  unfold pairLe
  rcases lexLtChars_trichot a.1.data b.1.data with h | h | h
  · exact Or.inl (Or.inl h)
  · have he : a.1 = b.1 := str_data_inj h
    rcases Nat.le_total a.2 b.2 with hn | hn
    · exact Or.inl (Or.inr ⟨he, hn⟩)
    · exact Or.inr (Or.inr ⟨he.symm, hn⟩)
  · exact Or.inr (Or.inl h)

instance pairLeTrans : IsTrans (String × Nat) pairLe := by
  constructor
  intro a b c hab hbc
  unfold pairLe at hab hbc ⊢
  rcases hab with h1 | ⟨he1, hn1⟩
  · rcases hbc with h2 | ⟨he2, hn2⟩
    · exact Or.inl (lexLtChars_trans _ _ _ h1 h2)
    · rw [← he2]
      exact Or.inl h1
  · rcases hbc with h2 | ⟨he2, hn2⟩
    · rw [he1]
      exact Or.inl h2
    · exact Or.inr ⟨he1.trans he2, Nat.le_trans hn1 hn2⟩

lemma counterAdd_keys (counter : List (String × Nat)) (k : String) :
    (counterAdd counter k).map Prod.fst =
      if k ∈ counter.map Prod.fst then counter.map Prod.fst
      else counter.map Prod.fst ++ [k] := by
  induction counter with
  | nil => simp [counterAdd]
  | cons p rest ih =>
    obtain ⟨k2, n⟩ := p
    by_cases hk : k2 = k
    · subst hk
      simp [counterAdd]
    · have hk2 : ¬ k = k2 := fun h => hk h.symm
      simp only [counterAdd, if_neg hk, List.map_cons, ih, List.mem_cons, hk2, false_or]
      by_cases hmem : k ∈ rest.map Prod.fst
      · rw [if_pos hmem, if_pos hmem]
      · rw [if_neg hmem, if_neg hmem, List.cons_append]

lemma counterAdd_nodup (counter : List (String × Nat)) (k : String)
    (h : (counter.map Prod.fst).Nodup) :
    ((counterAdd counter k).map Prod.fst).Nodup := by
  rw [counterAdd_keys]
  by_cases hk : k ∈ counter.map Prod.fst
  · rw [if_pos hk]
    exact h
  · rw [if_neg hk]
    rw [List.nodup_append]
    refine ⟨h, List.nodup_singleton k, ?_⟩
    intro x hx hx2
    rw [List.mem_singleton] at hx2
    rw [hx2] at hx
    exact hk hx

/-- The per-case loop keeps the error counter keys duplicate-free. -/
lemma runCasesLoop_counter_nodup (net : Net) (system : SystemConfig) (spec : BenchmarkSpec)
    (metric_name : String) :
    ∀ (cs : List Case) (acc : List CaseResult) (counter : List (String × Nat))
      (vals : List Bool) (crs : List CaseResult) (cnt : List (String × Nat)) (mv : List Bool),
      runCasesLoop net system spec metric_name cs acc counter vals = .ok (crs, cnt, mv) →
      (counter.map Prod.fst).Nodup → (cnt.map Prod.fst).Nodup := by
  intro cs
  induction cs with
  | nil =>
    intro acc counter vals crs cnt mv h hnd
    unfold runCasesLoop at h
    injection h with h
    simp only [Prod.mk.injEq] at h
    rw [← h.2.1]
    exact hnd
  | cons c rest ih =>
    intro acc counter vals crs cnt mv h hnd
    unfold runCasesLoop at h
    cases hrc : _run_case net c system spec with
    | error e =>
      rw [hrc] at h
      exact absurd h (by simp)
    | ok result =>
      rw [hrc] at h
      dsimp only at h
      have hmn := run_case_ok_metrics_none net c system spec result hrc
      cases hre : result.error with
      | some e =>
        rw [hre] at h
        dsimp only at h
        exact ih (acc ++ [result]) (counterAdd counter e.code) vals crs cnt mv h
          (counterAdd_nodup counter e.code hnd)
      | none =>
        rw [hre] at h
        dsimp only at h
        rw [hmn] at h
        dsimp only at h
        exact ih (acc ++ [result]) counter vals crs cnt mv h hnd

/-- Every system result `_run_system` returns has its error-count keys in
strictly increasing lexicographic order. -/
lemma run_system_error_counts_sorted (net : Net) (cases : List Case) (system : SystemConfig)
    (spec : BenchmarkSpec) (sr : SystemResult)
    (h : _run_system net cases system spec = .ok sr) :
    List.Sorted strLexLt (sr.error_counts.map Prod.fst) := by
  unfold _run_system at h
  cases ha : spec.reporting.aggregate.head? with
  | none =>
    rw [ha] at h
    exact absurd h (by simp)
  | some ac =>
    rw [ha] at h
    dsimp only at h
    cases hl : runCasesLoop net system spec spec.scoring.primary_metric cases [] [] [] with
    | error e =>
      rw [hl] at h
      exact absurd h (by simp)
    | ok out =>
      rw [hl] at h
      obtain ⟨crs, cnt, mv⟩ := out
      dsimp only at h
      injection h with h
      rw [← h]
      dsimp only
      have hnd : (cnt.map Prod.fst).Nodup :=
        runCasesLoop_counter_nodup net system spec spec.scoring.primary_metric cases [] [] []
          crs cnt mv hl (by simp)
      have hsorted : List.Sorted pairLe (List.insertionSort pairLe cnt) :=
        List.sorted_insertionSort pairLe cnt
      have hperm : (List.insertionSort pairLe cnt).Perm cnt :=
        List.perm_insertionSort pairLe cnt
      have hnd2 : ((List.insertionSort pairLe cnt).map Prod.fst).Nodup :=
        ((hperm.map Prod.fst).nodup_iff).mpr hnd
      have hne : List.Pairwise (fun a b : String × Nat => a.1 ≠ b.1)
          (List.insertionSort pairLe cnt) := by
        rw [List.Nodup, List.pairwise_map] at hnd2
        exact hnd2
      have hcomb := List.Pairwise.and hsorted hne
      show List.Pairwise strLexLt ((List.insertionSort pairLe cnt).map Prod.fst)
      rw [List.pairwise_map]
      refine hcomb.imp ?_
      intro a b hab
      rcases hab with ⟨hle, hne2⟩
      rcases hle with hlt | ⟨heq, _⟩
      · exact hlt
      · exact absurd heq hne2

/-- C10: In every system result a run returns, the keys of the error
counts are in strictly increasing lexicographic order. -/
theorem c10_error_counts_sorted (net : Net) (spec : BenchmarkSpec) (cases : List Case)
    (systems : List SystemConfig) (t1 t2 : Nat) (r : RunResult)
    (h : run_benchmark net spec cases systems t1 t2 = .ok r) :
    ∀ sr ∈ r.systems, List.Sorted strLexLt (sr.error_counts.map Prod.fst) := by
  intro sr hsr
  unfold run_benchmark at h
  cases hl : runSystemsLoop net cases spec systems [] with
  | error e =>
    rw [hl] at h
    exact absurd h (by simp)
  | ok srs =>
    rw [hl] at h
    injection h with h
    rw [← h] at hsr
    dsimp only at hsr
    rcases runSystemsLoop_mem net cases spec systems [] srs hl sr hsr with hin | ⟨sys, hsys⟩
    · simp at hin
    · exact run_system_error_counts_sorted net cases sys spec sr hsys

/-- Witness for C10 at the all-errors fixture run, whose error counts
hold the keys http_error and timeout in order. -/
theorem c10_witness : List.Sorted strLexLt (sysresFix.error_counts.map Prod.fst) :=
  c10_error_counts_sorted netErrors specFix [caseFix, caseFix2] [sysFix] 0 0 runresFix rfl
    sysresFix (List.Mem.head _)

/-- C4: The exact-match scorer fails with code metric_failed, naming the
side whose path resolution failed, exactly when resolving the prediction
path against the extracted output or the reference path against the
reference fails; otherwise it returns whether the two resolved values
are equal after normalization, and normalization lower-cases the textual
representation and removes exactly a whitespace prefix and suffix,
leaving a text with non-whitespace ends (internal whitespace preserved). -/
theorem c4_score_exact_match (extracted_output reference : Json)
    (pred_path ref_path : String) :
    (match score_exact_match extracted_output reference pred_path ref_path with
     | .error e =>
       e.code = "metric_failed" ∧
       ((∃ pe, eval_jsonpath extracted_output pred_path = .error pe ∧
          e.message = "Failed to extract predicted value at \x27" ++ pred_path
            ++ "\x27: " ++ pe) ∨
        (∃ pv re, eval_jsonpath extracted_output pred_path = .ok pv ∧
          eval_jsonpath reference ref_path = .error re ∧
          e.message = "Failed to extract reference value at \x27" ++ ref_path
            ++ "\x27: " ++ re))
     | .ok b =>
       ∃ pv rv, eval_jsonpath extracted_output pred_path = .ok pv ∧
         eval_jsonpath reference ref_path = .ok rv ∧
         (b = true ↔ _normalize pv = _normalize rv)) ∧
    (∀ w : Json, ∃ pre post : List Char,
       (pyLower (pyStr w)).data = pre ++ (_normalize w).data ++ post ∧
       pre.all pyIsSpace = true ∧ post.all pyIsSpace = true ∧
       (∀ c, (_normalize w).data.head? = some c → pyIsSpace c = false) ∧
       (∀ c, (_normalize w).data.getLast? = some c → pyIsSpace c = false)) := by
  constructor
  · unfold score_exact_match
    cases hp : eval_jsonpath extracted_output pred_path with
    | error pe =>
      dsimp only
      exact ⟨rfl, Or.inl ⟨pe, rfl, rfl⟩⟩
    | ok pv =>
      dsimp only
      cases hr : eval_jsonpath reference ref_path with
      | error re =>
        dsimp only
        exact ⟨rfl, Or.inr ⟨pv, re, rfl, rfl, rfl⟩⟩
      | ok rv =>
        dsimp only
        exact ⟨pv, rv, rfl, rfl, beq_iff_eq⟩
  · intro w
    exact pyStripData_spec ((pyLower (pyStr w)).data)

lemma splitOnChar_ne_nil (sep : Char) (l : List Char) : splitOnChar sep l ≠ [] := by
  cases l with
  | nil => simp [splitOnChar]
  | cons c rest =>
    by_cases hc : c = sep
    · simp [splitOnChar, hc]
    · cases hr : splitOnChar sep rest with
      | nil => simp [splitOnChar, hc, hr]
      | cons s ss => simp [splitOnChar, hc, hr]

/-- The two matcher states agree with the dot-splitting view of the
grammar: at a segment boundary the whole remainder must split into valid
field names; inside a field name the current piece must finish with name
characters and the later pieces must be valid field names. -/
lemma segs_split : ∀ cs : List Char,
    (segsIdentStart cs = (splitOnChar '.' cs).all validIdentChars) ∧
    (segsIdentRest cs =
      ((((splitOnChar '.' cs).headD []).all isIdentChar) &&
        ((splitOnChar '.' cs).tail).all validIdentChars)) := by
  intro cs
  induction cs with
  | nil => exact ⟨rfl, rfl⟩
  | cons c rest ih =>
    obtain ⟨ih1, ih2⟩ := ih
    have hdot_start : isIdentStart '.' = false := by decide
    have hdot_char : isIdentChar '.' = false := by decide
    cases hs : splitOnChar '.' rest with
    | nil => exact absurd hs (splitOnChar_ne_nil '.' rest)
    | cons s ss =>
      rw [hs] at ih1 ih2
      simp only [List.headD_cons, List.tail_cons] at ih2
      by_cases hc : c = '.'
      · subst hc
        have r1 : splitOnChar '.' ('.' :: rest) = [] :: s :: ss := by
          simp [splitOnChar, hs]
        constructor
        · rw [r1]
          simp [segsIdentStart, hdot_start, validIdentChars]
        · rw [r1]
          simp only [segsIdentRest, hdot_char, Bool.false_eq_true, if_false, if_pos rfl,
            List.headD_cons, List.tail_cons, List.all_cons, List.all_nil, Bool.true_and]
          rw [ih1]
          simp
      · have r2 : splitOnChar '.' (c :: rest) = (c :: s) :: ss := by
          simp [splitOnChar, hs, hc]
        by_cases hic : isIdentChar c = true
        · constructor
          · rw [r2]
            simp only [segsIdentStart, ih2, List.all_cons, validIdentChars]
            rw [Bool.and_assoc]
          · rw [r2]
            simp only [segsIdentRest, hic, if_true, ih2, List.headD_cons, List.tail_cons,
              List.all_cons]
            simp [hic]
        · constructor
          · rw [r2]
            simp only [segsIdentStart, ih2, List.all_cons, validIdentChars]
            rw [Bool.and_assoc]
          · rw [r2]
            have hic2 : isIdentChar c = false := by
              rw [Bool.not_eq_true] at hic
              exact hic
            simp [segsIdentRest, hic2, hc, validIdentChars]

/-- The source traversal loop is the classified traversal with its errors
rendered to the source's message strings. -/
lemma traverse_chainWalk : ∀ (fs : List String) (w : String) (cur : Json),
    traverseFields w cur fs = Except.mapError renderPathErr (chainWalk w cur fs) := by
  intro fs
  induction fs with
  | nil => intro w cur; rfl
  | cons f rest ih =>
    intro w cur
    cases cur with
    | null => rfl
    | bool b => rfl
    | num n => rfl
    | str s => rfl
    | arr items => rfl
    | obj kvs =>
      show traverseFields w (.obj kvs) (f :: rest) =
        Except.mapError renderPathErr (chainWalk w (.obj kvs) (f :: rest))
      simp only [traverseFields, chainWalk]
      cases lookupStr f kvs with
      | none => rfl
      | some v => exact ih (w ++ "." ++ f) v

/-- The classified traversal succeeds exactly on the value reached by
chained field access. -/
lemma chainWalk_ok_iff : ∀ (fs : List String) (w : String) (cur v : Json),
    chainWalk w cur fs = .ok v ↔ chainFold cur fs = some v := by
  intro fs
  induction fs with
  | nil =>
    intro w cur v
    simp [chainWalk, chainFold]
  | cons f rest ih =>
    intro w cur v
    cases cur with
    | null => simp [chainWalk, chainFold, getField]
    | bool b => simp [chainWalk, chainFold, getField]
    | num n => simp [chainWalk, chainFold, getField]
    | str s => simp [chainWalk, chainFold, getField]
    | arr items => simp [chainWalk, chainFold, getField]
    | obj kvs =>
      simp only [chainWalk, chainFold, getField]
      cases lookupStr f kvs with
      | none => simp
      | some u =>
        simp only
        exact ih (w ++ "." ++ f) u v

/-- The source evaluator core equals the reference core with rendered
errors, for every character list. -/
lemma evalChars_mapError (obj : Json) (cs : List Char) (p : String) :
    evalChars obj cs p = Except.mapError renderPathErr (refChars obj cs p) := by
  cases cs with
  | nil => rfl
  | cons c rest =>
    by_cases hc : c = '$'
    · subst hc
      cases rest with
      | nil => rfl
      | cons d t =>
        by_cases hd : d = '.'
        · subst hd
          have e1 : evalChars obj ('$' :: '.' :: t) p =
              (if segsIdentStart t = true then
                traverseFields ("$") obj ((splitOnChar '.' t).map String.mk)
              else .error ("Invalid JSONPath syntax: " ++ p)) := rfl
          have e2 : refChars obj ('$' :: '.' :: t) p =
              (if (splitOnChar '.' t).all validIdentChars = true then
                chainWalk ("$") obj ((splitOnChar '.' t).map String.mk)
              else .error (.badSyntax p)) := by
            show (match parseFields ('$' :: '.' :: t) with
              | none => Except.error (PathErr.badSyntax p)
              | some fs => chainWalk ("$") obj (fs.map String.mk)) = _
            by_cases hA : (splitOnChar '.' t).all validIdentChars = true
            · rw [show parseFields ('$' :: '.' :: t) = some (splitOnChar '.' t) by
                simp [parseFields, hA], if_pos hA]
            · rw [show parseFields ('$' :: '.' :: t) = none by
                simp [parseFields, hA], if_neg hA]
          rw [e1, e2, (segs_split t).1]
          by_cases hA : (splitOnChar '.' t).all validIdentChars = true
          · rw [if_pos hA, if_pos hA]
            exact traverse_chainWalk ((splitOnChar '.' t).map String.mk) ("$") obj
          · rw [if_neg hA, if_neg hA]
            rfl
        · have e1 : evalChars obj ('$' :: d :: t) p =
              (if segsMatch (d :: t) = true then
                (if (d :: t : List Char) = [] then .ok obj
                 else traverseFields ("$") obj
                   ((splitOnChar '.' ((d :: t).drop 1)).map String.mk))
              else .error ("Invalid JSONPath syntax: " ++ p)) := rfl
          have hm : segsMatch (d :: t) = false := by
            simp [segsMatch, hd]
          have e2 : parseFields ('$' :: d :: t) = none := by
            simp [parseFields, hd]
          rw [e1, hm]
          show Except.error ("Invalid JSONPath syntax: " ++ p) = _
          have e3 : refChars obj ('$' :: d :: t) p = .error (.badSyntax p) := by
            show (match parseFields ('$' :: d :: t) with
              | none => Except.error (PathErr.badSyntax p)
              | some fs => chainWalk ("$") obj (fs.map String.mk)) = _
            rw [e2]
          rw [e3]
          rfl
    · have e1 : evalChars obj (c :: rest) p =
          .error ("JSONPath must start with \x27$\x27, got: " ++ p) := by
        show (if c = '$' then _ else _) = _
        rw [if_neg hc]
      have e2 : refChars obj (c :: rest) p = .error (.noRoot p) := by
        show (if c = '$' then _ else _) = _
        rw [if_neg hc]
      rw [e1, e2]
      rfl

/-- The reference core succeeds exactly when the path parses under the
splitting grammar and the chained field accesses reach the value. -/
lemma refChars_ok_iff (obj : Json) (cs : List Char) (p : String) (v : Json) :
    refChars obj cs p = .ok v ↔
      ∃ fs, parseFields cs = some fs ∧ chainFold obj (fs.map String.mk) = some v := by
  cases cs with
  | nil => simp [refChars, parseFields]
  | cons c rest =>
    by_cases hc : c = '$'
    · have e1 : refChars obj (c :: rest) p =
          (match parseFields (c :: rest) with
           | none => Except.error (PathErr.badSyntax p)
           | some fs => chainWalk ("$") obj (fs.map String.mk)) := by
        show (if c = '$' then _ else _) = _
        rw [if_pos hc]
      rw [e1]
      cases hpf : parseFields (c :: rest) with
      | none => simp
      | some fs =>
        simp only [Option.some.injEq]
        constructor
        · intro h
          exact ⟨fs, rfl, (chainWalk_ok_iff (fs.map String.mk) ("$") obj v).mp h⟩
        · rintro ⟨fs2, hfs2, hcf⟩
          subst hfs2
          exact (chainWalk_ok_iff (fs.map String.mk) ("$") obj v).mpr hcf
    · have e1 : refChars obj (c :: rest) p = .error (.noRoot p) := by
        show (if c = '$' then _ else _) = _
        rw [if_neg hc]
      rw [e1]
      constructor
      · intro h
        exact absurd h (by simp)
      · rintro ⟨fs, hfs, hcf⟩
        have : parseFields (c :: rest) = none := by
          simp [parseFields, hc]
        rw [this] at hfs
        exact absurd hfs (by simp)

/-- C6: The path evaluator equals the classified reference evaluator
(trim; empty-path, missing-root, and grammar failures; then classified
traversal errors naming the field, walked path and runtime type) with
errors rendered to the source's messages, and it succeeds exactly when
the trimmed path parses under the splitting grammar and the chained
field accesses reach a value. -/
theorem c6_eval_jsonpath (obj : Json) (path : String) :
    eval_jsonpath obj path = Except.mapError renderPathErr (eval_jsonpath_ref obj path) ∧
    (∀ v, eval_jsonpath obj path = .ok v ↔
      ∃ fs, parseFields ((pyStrip path).data) = some fs ∧
        chainFold obj (fs.map String.mk) = some v) := by
  have main : eval_jsonpath obj path =
      Except.mapError renderPathErr (eval_jsonpath_ref obj path) :=
    evalChars_mapError obj ((pyStrip path).data) (pyStrip path)
  refine ⟨main, ?_⟩
  intro v
  rw [main]
  have mapu : ∀ r : Except PathErr Json,
      Except.mapError renderPathErr r = .ok v ↔ r = .ok v := by
    intro r
    cases r <;> simp [Except.mapError]
  rw [mapu]
  exact refChars_ok_iff obj ((pyStrip path).data) (pyStrip path) v

lemma split_singleton (sep : Char) : ∀ (l s : List Char),
    splitOnChar sep l = [s] → l = s := by
  intro l
  induction l with
  | nil =>
    intro s h
    simp [splitOnChar] at h
    rw [← h]
  | cons c rest ih =>
    intro s h
    by_cases hc : c = sep
    · rw [show splitOnChar sep (c :: rest) = [] :: splitOnChar sep rest by
        simp [splitOnChar, hc]] at h
      injection h with h1 h2
      exact absurd h2 (splitOnChar_ne_nil sep rest)
    · cases hs : splitOnChar sep rest with
      | nil => exact absurd hs (splitOnChar_ne_nil sep rest)
      | cons s2 ss =>
        rw [show splitOnChar sep (c :: rest) = (c :: s2) :: ss by
          simp [splitOnChar, hc, hs]] at h
        injection h with h1 h2
        rw [h2] at hs
        rw [← h1]
        rw [ih s2 hs]

/-- Every piece of the split of a list whose characters all satisfy a
predicate satisfies it too. -/
lemma splitOnChar_all (sep : Char) (P : Char → Bool) : ∀ (l : List Char),
    l.all P = true → ∀ piece ∈ splitOnChar sep l, piece.all P = true := by
  intro l
  induction l with
  | nil =>
    intro _ piece hp
    simp only [splitOnChar, List.mem_singleton] at hp
    rw [hp]
    rfl
  | cons c rest ih =>
    intro h piece hp
    simp only [List.all_cons, Bool.and_eq_true] at h
    by_cases hc : c = sep
    · rw [show splitOnChar sep (c :: rest) = [] :: splitOnChar sep rest by
        simp [splitOnChar, hc]] at hp
      rcases List.mem_cons.mp hp with he | hm
      · rw [he]
        rfl
      · exact ih h.2 piece hm
    · cases hs : splitOnChar sep rest with
      | nil => exact absurd hs (splitOnChar_ne_nil sep rest)
      | cons s ss =>
        rw [show splitOnChar sep (c :: rest) = (c :: s) :: ss by
          simp [splitOnChar, hc, hs]] at hp
        rcases List.mem_cons.mp hp with he | hm
        · rw [he]
          simp only [List.all_cons, Bool.and_eq_true]
          refine ⟨h.1, ?_⟩
          have : s ∈ splitOnChar sep rest := by
            rw [hs]
            exact List.Mem.head ss
          exact ih h.2 s this
        · have : piece ∈ splitOnChar sep rest := by
            rw [hs]
            exact List.Mem.tail s hm
          exact ih h.2 piece this

/-- Appending an all-whitespace tail to the text extends the last line
with whitespace and adds only all-whitespace lines after it; the earlier
lines are untouched. -/
lemma split_append_ws (sep : Char) (P : Char → Bool) :
    ∀ (k suffix : List Char), suffix.all P = true →
    ∃ (pref : List (List Char)) (y w0 : List Char) (ws : List (List Char)),
      splitOnChar sep k = pref ++ [y] ∧
      splitOnChar sep (k ++ suffix) = pref ++ ((y ++ w0) :: ws) ∧
      w0.all P = true ∧ (∀ piece ∈ ws, piece.all P = true) := by
  intro k
  induction k with
  | nil =>
    intro suffix hsuf
    cases hs : splitOnChar sep suffix with
    | nil => exact absurd hs (splitOnChar_ne_nil sep suffix)
    | cons w0 ws =>
      refine ⟨[], [], w0, ws, rfl, ?_, ?_, ?_⟩
      · rw [List.nil_append, hs]
        rfl
      · have : w0 ∈ splitOnChar sep suffix := by
          rw [hs]
          exact List.Mem.head ws
        exact splitOnChar_all sep P suffix hsuf w0 this
      · intro piece hpi
        have : piece ∈ splitOnChar sep suffix := by
          rw [hs]
          exact List.Mem.tail w0 hpi
        exact splitOnChar_all sep P suffix hsuf piece this
  | cons c rest ih =>
    intro suffix hsuf
    obtain ⟨pref, y, w0, ws, hk, hkw, hw0, hws⟩ := ih suffix hsuf
    by_cases hc : c = sep
    · refine ⟨[] :: pref, y, w0, ws, ?_, ?_, hw0, hws⟩
      · rw [show splitOnChar sep (c :: rest) = [] :: splitOnChar sep rest by
          simp [splitOnChar, hc], hk]
        rfl
      · rw [show (c :: rest) ++ suffix = c :: (rest ++ suffix) from rfl]
        rw [show splitOnChar sep (c :: (rest ++ suffix)) =
          [] :: splitOnChar sep (rest ++ suffix) by simp [splitOnChar, hc], hkw]
        rfl
    · cases hpref : pref with
      | nil =>
        rw [hpref] at hk hkw
        simp only [List.nil_append] at hk hkw
        refine ⟨[], c :: y, w0, ws, ?_, ?_, hw0, hws⟩
        · rw [show splitOnChar sep (c :: rest) = (c :: y) :: [] by
            simp [splitOnChar, hc, hk]]
          rfl
        · rw [show (c :: rest) ++ suffix = c :: (rest ++ suffix) from rfl]
          rw [show splitOnChar sep (c :: (rest ++ suffix)) =
            (c :: (y ++ w0)) :: ws by simp [splitOnChar, hc, hkw]]
          rfl
      | cons p ps =>
        rw [hpref] at hk hkw
        refine ⟨(c :: p) :: ps, y, w0, ws, ?_, ?_, hw0, hws⟩
        · have hk2 : splitOnChar sep rest = p :: (ps ++ [y]) := by
            rw [hk]
            rfl
          rw [show splitOnChar sep (c :: rest) = (c :: p) :: (ps ++ [y]) by
            simp [splitOnChar, hc, hk2]]
          rfl
        · have hkw2 : splitOnChar sep (rest ++ suffix) = p :: (ps ++ ((y ++ w0) :: ws)) := by
            rw [hkw]
            rfl
          rw [show (c :: rest) ++ suffix = c :: (rest ++ suffix) from rfl]
          rw [show splitOnChar sep (c :: (rest ++ suffix)) =
            (c :: p) :: (ps ++ ((y ++ w0) :: ws)) by simp [splitOnChar, hc, hkw2]]
          rfl

lemma all_ws_strip_nil (l : List Char) (h : l.all pyIsSpace = true) :
    pyStripData l = [] := by
  unfold pyStripData
  have h1 : l.dropWhile pyIsSpace = [] :=
    List.dropWhile_eq_nil_iff.mpr (fun x hx => by
      rw [List.all_eq_true] at h
      exact h x hx)
  rw [h1]
  rfl

/-- Stripping ignores an all-whitespace tail. -/
lemma strip_append_ws (lc w : List Char) (h : w.all pyIsSpace = true) :
    pyStripData (lc ++ w) = pyStripData lc := by
  have hwnil : w.dropWhile pyIsSpace = [] :=
    List.dropWhile_eq_nil_iff.mpr (fun x hx => by
      rw [List.all_eq_true] at h
      exact h x hx)
  have hwrev : w.reverse.dropWhile pyIsSpace = [] :=
    List.dropWhile_eq_nil_iff.mpr (fun x hx => by
      rw [List.all_eq_true] at h
      exact h x (List.mem_reverse.mp hx))
  unfold pyStripData
  by_cases hnil : lc.dropWhile pyIsSpace = []
  · rw [List.dropWhile_append, hnil]
    simp only [List.isEmpty_nil, if_true]
    rw [hwnil]
  · have hne : (lc.dropWhile pyIsSpace).isEmpty = false := by
      cases hq : (lc.dropWhile pyIsSpace).isEmpty
      · rfl
      · exact absurd (List.isEmpty_iff.mp hq) hnil
    rw [List.dropWhile_append, hne]
    simp only [Bool.false_eq_true, if_false]
    rw [List.reverse_append]
    rw [List.dropWhile_append, hwrev]
    simp only [List.isEmpty_nil, if_true]

/-- A list whose ends are not whitespace is already stripped. -/
lemma pyStripData_fixed (l : List Char)
    (h1 : ∀ c, l.head? = some c → pyIsSpace c = false)
    (h2 : ∀ c, l.getLast? = some c → pyIsSpace c = false) :
    pyStripData l = l := by
  unfold pyStripData
  rw [dropWhile_eq_self_of_head pyIsSpace l h1]
  rw [dropWhile_eq_self_of_head pyIsSpace l.reverse (by
    intro c hc
    rw [List.head?_reverse] at hc
    exact h2 c hc)]
  exact List.reverse_reverse l

/-- Processing a blank line advances only the counter. -/
lemma lineStep_blank (n : Nat) (s : List String) (a : List Case) (l : String)
    (h : pyStrip l = "") : lineStep n s a l = .ok (n + 1, s, a) := by
  unfold lineStep
  rw [h]
  rfl

/-- Processing a run of blank lines advances only the counter. -/
lemma processLines_blanks : ∀ (ls : List String) (n : Nat) (s : List String) (a : List Case),
    (∀ l ∈ ls, pyStrip l = "") →
    processLines n s a ls = .ok (n + ls.length, s, a) := by
  intro ls
  induction ls with
  | nil =>
    intro n s a _
    simp [processLines]
  | cons l rest ih =>
    intro n s a h
    unfold processLines
    rw [lineStep_blank n s a l (h l (List.Mem.head rest))]
    dsimp only
    rw [ih (n + 1) s a (fun x hx => h x (List.Mem.tail l hx))]
    have : n + 1 + rest.length = n + (rest.length + 1) := by omega
    rw [this]
    rfl

/-- The loop over a concatenation is the loop over the first part
followed, on success, by the loop over the second. -/
lemma processLines_append : ∀ (xs ys : List String) (n : Nat) (s : List String) (a : List Case),
    processLines n s a (xs ++ ys) =
      match processLines n s a xs with
      | .error e => .error e
      | .ok (n2, s2, a2) => processLines n2 s2 a2 ys := by
  intro xs
  induction xs with
  | nil => intro ys n s a; rfl
  | cons l rest ih =>
    intro ys n s a
    rw [show (l :: rest) ++ ys = l :: (rest ++ ys) from rfl]
    have hstep1 : processLines n s a (l :: (rest ++ ys)) =
        match lineStep n s a l with
        | .error e => .error e
        | .ok (n2, s2, a2) => processLines n2 s2 a2 (rest ++ ys) := rfl
    have hstep2 : processLines n s a (l :: rest) =
        match lineStep n s a l with
        | .error e => .error e
        | .ok (n2, s2, a2) => processLines n2 s2 a2 rest := rfl
    rw [hstep1, hstep2]
    cases hls : lineStep n s a l with
    | error e => rfl
    | ok o =>
      obtain ⟨n2, s2, a2⟩ := o
      dsimp only
      exact ih ys n2 s2 a2

lemma finalize_congr (r1 r2 : Except DatasetErr (Nat × List String × List Case))
    (h : sameOutcome r1 r2) : finalizeCases r1 = finalizeCases r2 := by
  cases r1 with
  | error e1 =>
    cases r2 with
    | error e2 =>
      have he : e1 = e2 := h
      rw [he]
    | ok o2 =>
      obtain ⟨n2, s2, a2⟩ := o2
      exact absurd h (fun hf => hf)
  | ok o1 =>
    obtain ⟨n1, s1, a1⟩ := o1
    cases r2 with
    | error e2 => exact absurd h (fun hf => hf)
    | ok o2 =>
      obtain ⟨n2, s2, a2⟩ := o2
      obtain ⟨hs, ha⟩ := h
      show (if a1.isEmpty = true then _ else _) = (if a2.isEmpty = true then _ else _)
      rw [ha]

/-- Appending an all-whitespace suffix to the text does not change which
error the loop reports nor the cases it collects; only the final line
counter (which nothing reads) differs. -/
lemma processLines_ws_suffix (core suffix : List Char) (n : Nat) (s : List String)
    (a : List Case) (hsuf : suffix.all pyIsSpace = true) :
    sameOutcome (processLines n s a ((splitOnChar '\n' core).map String.mk))
                (processLines n s a ((splitOnChar '\n' (core ++ suffix)).map String.mk)) := by
  obtain ⟨pref, y, w0, ws, hk, hkw, hw0, hws⟩ :=
    split_append_ws '\n' pyIsSpace core suffix hsuf
  rw [hk, hkw, List.map_append, List.map_append]
  rw [processLines_append, processLines_append]
  cases hp : processLines n s a (pref.map String.mk) with
  | error e => exact rfl
  | ok o =>
    obtain ⟨n2, s2, a2⟩ := o
    dsimp only
    have hstrip : pyStrip (String.mk (y ++ w0)) = pyStrip (String.mk y) := by
      unfold pyStrip
      exact congrArg String.mk (strip_append_ws y w0 hw0)
    have hblanks : ∀ l ∈ ws.map String.mk, pyStrip l = "" := by
      intro l hl
      obtain ⟨piece, hpi, hpe⟩ := List.mem_map.mp hl
      rw [← hpe]
      unfold pyStrip
      rw [show (String.mk piece).data = piece from rfl]
      rw [all_ws_strip_nil piece (hws piece hpi)]
    show sameOutcome (processLines n2 s2 a2 ([String.mk y]))
      (processLines n2 s2 a2 (String.mk (y ++ w0) :: ws.map String.mk))
    unfold processLines
    have hls : lineStep n2 s2 a2 (String.mk (y ++ w0)) = lineStep n2 s2 a2 (String.mk y) := by
      unfold lineStep
      rw [hstrip]
    rw [hls]
    cases hstep : lineStep n2 s2 a2 (String.mk y) with
    | error e => exact rfl
    | ok o2 =>
      obtain ⟨n3, s3, a3⟩ := o2
      dsimp only
      rw [show processLines n3 s3 a3 ([] : List String) = .ok (n3, s3, a3) from rfl]
      rw [processLines_blanks (ws.map String.mk) n3 s3 a3 hblanks]
      exact ⟨rfl, rfl⟩

/-- C7 (amended): When the file does not begin with whitespace, the
loader's reported line numbers agree with the reference loader that
numbers lines by their position in the original file, and it returns the
same cases; interior blank lines are counted but skipped, and only the
initial whole-content strip (which removes leading blank lines) can
shift numbering. -/
theorem c7_line_numbers (content : String) (h : noLeadingWS content = true) :
    load_dataset_jsonl content = load_dataset_ref content := by
  by_cases hall : pyStrip content = ""
  · unfold load_dataset_jsonl load_dataset_ref
    dsimp only
    rw [hall]
    rfl
  · have hhead : ∀ c, content.data.head? = some c → pyIsSpace c = false := by
      intro c hc2
      unfold noLeadingWS at h
      cases hcd : content.data with
      | nil =>
        rw [hcd] at hc2
        simp at hc2
      | cons c0 k2 =>
        rw [hcd] at h hc2
        dsimp only at h
        injection hc2 with hc2
        rw [← hc2]
        simpa using h
    have hdw : content.data.dropWhile pyIsSpace = content.data :=
      dropWhile_eq_self_of_head pyIsSpace content.data hhead
    have hstripform : pyStripData content.data =
        (content.data.reverse.dropWhile pyIsSpace).reverse := by
      unfold pyStripData
      rw [hdw]
    have hdecomp : content.data =
        (content.data.reverse.dropWhile pyIsSpace).reverse ++
        (content.data.reverse.takeWhile pyIsSpace).reverse := by
      have h2 := congrArg List.reverse
        (List.takeWhile_append_dropWhile pyIsSpace content.data.reverse)
      rw [List.reverse_append, List.reverse_reverse] at h2
      exact h2.symm
    have hsufws : ((content.data.reverse.takeWhile pyIsSpace).reverse).all pyIsSpace = true := by
      rw [List.all_reverse]
      exact List.all_takeWhile
    have hcore_ne : pyStripData content.data ≠ [] := by
      intro hnil
      apply hall
      show pyStrip content = ""
      unfold pyStrip
      rw [hnil]
    obtain ⟨pre, post, _, _, _, hhead2, hlast2⟩ := pyStripData_spec content.data
    have hfix : pyStripData (pyStripData content.data) = pyStripData content.data :=
      pyStripData_fixed _ hhead2 hlast2
    have hcheck : ¬ (pySplit '\n' (pyStrip content) = [] ∨
        ((pySplit '\n' (pyStrip content)).length = 1 ∧
          pyStrip ((pySplit '\n' (pyStrip content)).headD ("")) = "")) := by
      rintro (h1 | ⟨h2, h3⟩)
      · unfold pySplit at h1
        rw [List.map_eq_nil] at h1
        exact splitOnChar_ne_nil '\n' (pyStrip content).data h1
      · unfold pySplit at h2 h3
        have hlen : (splitOnChar '\n' (pyStrip content).data).length = 1 := by
          rw [← List.length_map (splitOnChar '\n' (pyStrip content).data) String.mk]
          exact h2
        cases hsp : splitOnChar '\n' (pyStrip content).data with
        | nil => exact splitOnChar_ne_nil '\n' (pyStrip content).data hsp
        | cons s ss =>
          cases ss with
          | cons s2 ss2 =>
            rw [hsp] at hlen
            simp at hlen
          | nil =>
            have hdefeq : (pyStrip content).data = pyStripData content.data := rfl
            have hseq : (pyStrip content).data = s := split_singleton '\n' _ s hsp
            have hs_eq : s = pyStripData content.data := hseq.symm.trans hdefeq
            rw [hsp] at h3
            simp only [List.map_cons, List.map_nil, List.headD_cons] at h3
            have h4 : pyStripData s = [] := congrArg String.data h3
            rw [hs_eq, hfix] at h4
            exact hcore_ne h4
    unfold load_dataset_jsonl load_dataset_ref
    dsimp only
    rw [if_neg hcheck, if_neg hall]
    apply finalize_congr
    have e1 : pySplit '\n' (pyStrip content) =
        (splitOnChar '\n' ((content.data.reverse.dropWhile pyIsSpace).reverse)).map String.mk := by
      unfold pySplit pyStrip
      rw [show (String.mk (pyStripData content.data)).data = pyStripData content.data from rfl]
      rw [hstripform]
    have e2 : pySplit '\n' content =
        (splitOnChar '\n' ((content.data.reverse.dropWhile pyIsSpace).reverse ++
          (content.data.reverse.takeWhile pyIsSpace).reverse)).map String.mk := by
      unfold pySplit
      rw [← hdecomp]
    rw [e1, e2]
    exact processLines_ws_suffix _ _ 1 [] [] hsufws

/-- Counterexample to C7 as stated: a file whose first line is blank.
The loader strips the whole content before numbering, so it reports the
bad line as line 1, while that line is the second line of the original
file (the reference loader numbering by original position reports 2). -/
theorem c7_counterexample :
    load_dataset_jsonl ("\nnotjson") = .error (.invalidJson 1 ("Expecting value")) ∧
    pySplit '\n' ("\nnotjson") = [(""), ("notjson")] ∧
    load_dataset_ref ("\nnotjson") = .error (.invalidJson 2 ("Expecting value")) :=
  ⟨rfl, rfl, rfl⟩

/-- Witness for the amended C7 at a file with a valid first case, an
interior blank line, and a duplicate id on the third line. -/
theorem c7_witness :
    noLeadingWS ("\x7b\"id\":\"a\",\"input\":\x7b\"x\":1\x7d,\"reference\":\x7b\"y\":2\x7d\x7d\n\n\x7b\"id\":\"a\",\"input\":\x7b\"x\":1\x7d,\"reference\":\x7b\"y\":2\x7d\x7d") = true ∧
    load_dataset_jsonl ("\x7b\"id\":\"a\",\"input\":\x7b\"x\":1\x7d,\"reference\":\x7b\"y\":2\x7d\x7d\n\n\x7b\"id\":\"a\",\"input\":\x7b\"x\":1\x7d,\"reference\":\x7b\"y\":2\x7d\x7d") =
      load_dataset_ref ("\x7b\"id\":\"a\",\"input\":\x7b\"x\":1\x7d,\"reference\":\x7b\"y\":2\x7d\x7d\n\n\x7b\"id\":\"a\",\"input\":\x7b\"x\":1\x7d,\"reference\":\x7b\"y\":2\x7d\x7d") :=
  ⟨rfl, c7_line_numbers
    ("\x7b\"id\":\"a\",\"input\":\x7b\"x\":1\x7d,\"reference\":\x7b\"y\":2\x7d\x7d\n\n\x7b\"id\":\"a\",\"input\":\x7b\"x\":1\x7d,\"reference\":\x7b\"y\":2\x7d\x7d") rfl⟩

/-- Witness for C4 at a concrete scoring call: prediction " 4 " against
reference "4" under the root and field paths. -/
theorem c4_witness :
    score_exact_match (Json.str (" 4 ")) (Json.obj [(("answer"), Json.str ("4"))])
      ("$") ("$.answer") = .ok true ∧
    (∃ pv rv, eval_jsonpath (Json.str (" 4 ")) ("$") = .ok pv ∧
      eval_jsonpath (Json.obj [(("answer"), Json.str ("4"))]) ("$.answer") = .ok rv ∧
      ((true : Bool) = true ↔ _normalize pv = _normalize rv)) := by
  constructor
  · rfl
  · have h := (c4_score_exact_match (Json.str (" 4 "))
      (Json.obj [(("answer"), Json.str ("4"))]) ("$") ("$.answer")).1
    rw [show score_exact_match (Json.str (" 4 ")) (Json.obj [(("answer"), Json.str ("4"))])
      ("$") ("$.answer") = .ok true from rfl] at h
    exact h

/-- Witness for C6 at a concrete nested path. -/
theorem c6_witness :
    eval_jsonpath (Json.obj [(("a"), Json.obj [(("b"), Json.num 3)])]) ("$.a.b") =
      Except.mapError renderPathErr
        (eval_jsonpath_ref (Json.obj [(("a"), Json.obj [(("b"), Json.num 3)])]) ("$.a.b")) ∧
    (eval_jsonpath (Json.obj [(("a"), Json.obj [(("b"), Json.num 3)])]) ("$.a.b") =
        .ok (Json.num 3) ↔
      ∃ fs, parseFields ((pyStrip ("$.a.b")).data) = some fs ∧
        chainFold (Json.obj [(("a"), Json.obj [(("b"), Json.num 3)])])
          (fs.map String.mk) = some (Json.num 3)) :=
  ⟨(c6_eval_jsonpath (Json.obj [(("a"), Json.obj [(("b"), Json.num 3)])]) ("$.a.b")).1,
   (c6_eval_jsonpath (Json.obj [(("a"), Json.obj [(("b"), Json.num 3)])]) ("$.a.b")).2
     (Json.num 3)⟩

end YardstickEngine

